import Mathlib

/-!
Verification of the `thatique/awan` blob-storage packages against their
natural-language specification.

The development shallowly embeds the Go sources of `blob/fileblob` (the local
filesystem storage engine), the parts of the backend-independent facade
(`package blob`) relevant to metadata normalization, and the small helpers
from `internal/blob` they use.  Go strings are modelled as Lean `String`
(rune sequences); machine integers (`int`, `int64`) as `Int`; byte slices as
`List Nat`; fallible operations return `Except`.  The filesystem is modelled
as a flat association list from slash-separated paths to file data, and the
directory tree walked by `ListPaged` as a finite tree.  Cryptographic hash
functions from the Go standard library (`crypto/md5`, `sha256`) are taken as
parameters of the embedding; hex encoding/decoding is implemented concretely.

The verification targets the Unix build of the code: `os.PathSeparator`
is `/`, so the Windows-only branches of the sources reduce away (they are
still transcribed).
-/

deriving instance DecidableEq for Except

namespace Awan

/-! ## Basic helpers: hex digits, hex strings -/

/-- Value of a hex digit character, `16` for non-digits. -/
def hexCharVal (c : Char) : Nat :=
  if '0' ≤ c ∧ c ≤ '9' then c.toNat - '0'.toNat
  else if 'a' ≤ c ∧ c ≤ 'f' then c.toNat - 'a'.toNat + 10
  else if 'A' ≤ c ∧ c ≤ 'F' then c.toNat - 'A'.toNat + 10
  else 16

/-- Whether `c` is a hexadecimal digit (either case), as accepted by Go's
`encoding/hex` and by the hex-escape decoder. -/
def isHexDigitChar (c : Char) : Bool :=
  decide (('0' ≤ c ∧ c ≤ '9') ∨ ('a' ≤ c ∧ c ≤ 'f') ∨ ('A' ≤ c ∧ c ≤ 'F'))

/-- Lower-case hex digit character for `n < 16`. -/
def hexDigitChar (n : Nat) : Char :=
  if n < 10 then Char.ofNat ('0'.toNat + n) else Char.ofNat ('a'.toNat + (n - 10))

/-- Lower-case hex rendering of a rune value, most significant digit first,
no leading zeros (`0` renders as `"0"`).  Rune values are below `16^6`, so
six explicit magnitude cases are exhaustive. -/
def toHexChars (n : Nat) : List Char :=
  if n < 16 then [hexDigitChar n]
  else if n < 16^2 then [hexDigitChar (n / 16), hexDigitChar (n % 16)]
  else if n < 16^3 then
    [hexDigitChar (n / 16^2), hexDigitChar (n / 16 % 16), hexDigitChar (n % 16)]
  else if n < 16^4 then
    [hexDigitChar (n / 16^3), hexDigitChar (n / 16^2 % 16), hexDigitChar (n / 16 % 16),
     hexDigitChar (n % 16)]
  else if n < 16^5 then
    [hexDigitChar (n / 16^4), hexDigitChar (n / 16^3 % 16), hexDigitChar (n / 16^2 % 16),
     hexDigitChar (n / 16 % 16), hexDigitChar (n % 16)]
  else
    [hexDigitChar (n / 16^5), hexDigitChar (n / 16^4 % 16), hexDigitChar (n / 16^3 % 16),
     hexDigitChar (n / 16^2 % 16), hexDigitChar (n / 16 % 16), hexDigitChar (n % 16)]

/-! ## Key codec

`escapeBlobKey` / `unescapeBlobKey` from `blob/fileblob/fileblob.go`.  The
escaping predicate is transcribed from the source.  The generic escape
machinery lives in `internal/escape` (`HexEscape` / `HexUnescape`), whose
source is not part of this snapshot; it is modelled from the spec below. -/

/-- Unix build constant: the platform path separator. -/
def osPathSeparator : Char := '/'

/-- The escaping predicate passed to `HexEscape` by `escapeBlobKey`
(fileblob.go lines 122-145), over the rune slice `r` at index `i`:
control characters, a raw platform separator when distinct from `/`,
the slash ending `"../"`, the slash ending `"//"`, a trailing slash,
and (Windows only) the reserved file-name characters. -/
def escapeBlobKeyCond (r : List Char) (i : Nat) : Bool :=
  let c := r.getD i ' '
  if c.toNat < 32 then true
  else if osPathSeparator ≠ '/' ∧ c = osPathSeparator then true
  else if 1 < i ∧ c = '/' ∧ r.getD (i-1) ' ' = '.' ∧ r.getD (i-2) ' ' = '.' then true
  else if 0 < i ∧ c = '/' ∧ r.getD (i-1) ' ' = '/' then true
  else if c = '/' ∧ i = r.length - 1 then true
  else if osPathSeparator = '\\' ∧
      (c = '>' ∨ c = '<' ∨ c = ':' ∨ c = '\"' ∨ c = '|' ∨ c = '?' ∨ c = '*') then true
  else false

/-- Modelled from the spec: the escape sequence `internal/escape.HexEscape`
substitutes for a selected rune — a delimiter-marked hexadecimal code of the
rune's value (`__0x<hex>__`). -/
def escSeq (c : Char) : List Char :=
  '_' :: '_' :: '0' :: 'x' :: (toHexChars c.toNat ++ ['_', '_'])

/-- Modelled from the spec: `internal/escape.HexEscape` returns the rune
sequence with every rune selected by the predicate replaced by its
delimiter-marked hex code; all other runes pass through unchanged.  Encoding
never fails. -/
def hexEscapeList (cond : List Char → Nat → Bool) (r : List Char) : List Char :=
  ((List.range r.length).map
    (fun i => if cond r i then escSeq (r.getD i ' ') else [r.getD i ' '])).flatten

/-- Greedy hex scan: consume leading hex digits into an accumulator, return
the value and the unconsumed rest. -/
def scanHexAux (acc : Nat) : List Char → Nat × List Char
  | [] => (acc, [])
  | c :: cs =>
    if isHexDigitChar c then scanHexAux (acc * 16 + hexCharVal c) cs else (acc, c :: cs)

/-- Recognize the tail of an escape sequence after the `__0x` marker: at
least one hex digit, greedily consumed, followed by the closing `__`. -/
def unescSeqTail (rest : List Char) : Option (Nat × List Char) :=
  match rest with
  | [] => none
  | c :: cs =>
    if isHexDigitChar c then
      match scanHexAux (hexCharVal c) cs with
      | (n, '_' :: '_' :: rest2) => some (n, rest2)
      | _ => none
    else none

/-- Recognize a whole escape sequence at the head of the rune list: the
`__0x` marker followed by hex digits and the closing `__`.  Returns the
decoded rune value and the remainder, or `none` when the head is not an
escape sequence. -/
def takeEsc (cs : List Char) : Option (Nat × List Char) :=
  match cs with
  | c1 :: c2 :: c3 :: c4 :: rest =>
    if c1 = '_' ∧ c2 = '_' ∧ c3 = '0' ∧ c4 = 'x' then unescSeqTail rest else none
  | _ => none

/-- Fuel-driven scanner body of the hex unescaper.  Each step consumes at
least one rune, so fuel equal to the rune count never runs out. -/
def hexUnescapeGo : Nat → List Char → List Char
  | 0, cs => cs
  | _+1, [] => []
  | fuel+1, c :: cs =>
    match takeEsc (c :: cs) with
    | some (n, rest2) => Char.ofNat n :: hexUnescapeGo fuel rest2
    | none => c :: hexUnescapeGo fuel cs

/-- Modelled from the spec: `internal/escape.HexUnescape` reverses
`HexEscape` by scanning for delimiter-marked hex codes and decoding each
back to the rune it encodes; all other runes pass through unchanged. -/
def hexUnescapeList (cs : List Char) : List Char :=
  hexUnescapeGo cs.length cs

/-- Replace every occurrence of `a` by `b` in a rune sequence
(`strings.Replace(s, a, b, -1)` for single-rune arguments). -/
def replaceChar (a b : Char) (r : List Char) : List Char :=
  r.map (fun c => if c = a then b else c)

/-- Transcribed from fileblob.go `escapeBlobKey`: hex-escape the runes
selected by the predicate, then (only when the platform separator differs
from `/`) replace `/` by the platform separator. -/
def escapeBlobKey (s : String) : String :=
  let r := hexEscapeList escapeBlobKeyCond s.toList
  let r := if osPathSeparator ≠ '/' then replaceChar '/' osPathSeparator r else r
  r.asString

/-- Transcribed from fileblob.go `unescapeBlobKey`: (only when the platform
separator differs from `/`) replace the platform separator by `/`, then
hex-unescape. -/
def unescapeBlobKey (s : String) : String :=
  let r := s.toList
  let r := if osPathSeparator ≠ '/' then replaceChar osPathSeparator '/' r else r
  (hexUnescapeList r).asString

example : escapeBlobKey "abc/def" = "abc/def" := by decide
example : escapeBlobKey "../x" = "..__0x2f__x" := by decide
example : escapeBlobKey "a//b" = "a/__0x2f__b" := by decide
example : escapeBlobKey "dir/" = "dir__0x2f__" := by decide
example : unescapeBlobKey "..__0x2f__x" = "../x" := by decide
example : unescapeBlobKey (escapeBlobKey "__0x2f__") = "/" := by decide
example : unescapeBlobKey (escapeBlobKey "weird_ key/ with.stuff") = "weird_ key/ with.stuff" := by decide

/-! ### Round-trip machinery for the codec

The escaped string is the concatenation of per-rune blocks: a literal rune,
or the escape sequence of a rune.  The decoder recovers the rune sequence
provided no two consecutive literal underscores occur (two consecutive
unescaped `_` runes are the only way a spurious escape marker can appear). -/

/-- Per-rune block of an escaped string: the rune passed through literally,
or replaced by its escape sequence. -/
inductive EscTag where
  | lit (c : Char)
  | esc (c : Char)
deriving DecidableEq

/-- Runes a block contributes to the escaped string. -/
def renderTag : EscTag → List Char
  | .lit c => [c]
  | .esc c => escSeq c

/-- Escaped string assembled from blocks. -/
def renderTags (ts : List EscTag) : List Char := (ts.map renderTag).flatten

/-- The original rune of a block. -/
def tagChar : EscTag → Char
  | .lit c => c
  | .esc c => c

/-- Block decomposition of `hexEscapeList cond r`. -/
def escTags (cond : List Char → Nat → Bool) (r : List Char) : List EscTag :=
  (List.range r.length).map
    (fun i => if cond r i then .esc (r.getD i ' ') else .lit (r.getD i ' '))

theorem hexDigitChar_isHex (d : Nat) (h : d < 16) :
    isHexDigitChar (hexDigitChar d) = true := by
  interval_cases d <;> decide

theorem hexDigitChar_val (d : Nat) (h : d < 16) :
    hexCharVal (hexDigitChar d) = d := by
  interval_cases d <;> decide

theorem map_getD_range (l : List Char) :
    (List.range l.length).map (fun i => l.getD i ' ') = l := by
  induction l with
  | nil => rfl
  | cons a l ih =>
    rw [List.length_cons, List.range_succ_eq_map, List.map_cons, List.map_map]
    simp only [List.getD_cons_zero, Function.comp_def, List.getD_cons_succ]
    rw [ih]

theorem scanHexAux_digits (ds : List Char) (rest : List Char) (acc : Nat)
    (h : ∀ c ∈ ds, isHexDigitChar c = true) :
    scanHexAux acc (ds ++ rest) =
      scanHexAux (ds.foldl (fun a c => a * 16 + hexCharVal c) acc) rest := by
  induction ds generalizing acc with
  | nil => rfl
  | cons c ds ih =>
    rw [List.cons_append]
    simp only [scanHexAux, h c (List.mem_cons_self c ds), if_true, List.foldl_cons]
    exact ih _ (fun x hx => h x (List.mem_cons_of_mem c hx))

theorem toHexChars_spec (n : Nat) (h : n < 16^6) :
    (∀ c ∈ toHexChars n, isHexDigitChar c = true) ∧
    (toHexChars n).foldl (fun a c => a * 16 + hexCharVal c) 0 = n ∧
    toHexChars n ≠ [] := by
  have hv : ∀ d : Nat, d < 16 →
      isHexDigitChar (hexDigitChar d) = true ∧ hexCharVal (hexDigitChar d) = d :=
    fun d hd => ⟨hexDigitChar_isHex d hd, hexDigitChar_val d hd⟩
  unfold toHexChars
  split_ifs with h1 h2 h3 h4 h5
  · obtain ⟨ha, hb⟩ := hv n h1
    refine ⟨?_, by simp only [List.foldl_cons, List.foldl_nil]; rw [hb]; omega, by simp⟩
    intro c hc
    simp only [List.mem_singleton] at hc
    subst hc; exact ha
  · obtain ⟨a1, b1⟩ := hv (n / 16) (by omega)
    obtain ⟨a0, b0⟩ := hv (n % 16) (by omega)
    refine ⟨?_, by simp only [List.foldl_cons, List.foldl_nil]; rw [b1, b0]; omega, by simp⟩
    intro c hc
    simp only [List.mem_cons, List.mem_singleton, List.not_mem_nil, or_false] at hc
    rcases hc with rfl | rfl <;> assumption
  · obtain ⟨a2, b2⟩ := hv (n / 16^2) (by omega)
    obtain ⟨a1, b1⟩ := hv (n / 16 % 16) (by omega)
    obtain ⟨a0, b0⟩ := hv (n % 16) (by omega)
    refine ⟨?_, by simp only [List.foldl_cons, List.foldl_nil]; rw [b2, b1, b0]; omega, by simp⟩
    intro c hc
    simp only [List.mem_cons, List.mem_singleton, List.not_mem_nil, or_false] at hc
    rcases hc with rfl | rfl | rfl <;> assumption
  · obtain ⟨a3, b3⟩ := hv (n / 16^3) (by omega)
    obtain ⟨a2, b2⟩ := hv (n / 16^2 % 16) (by omega)
    obtain ⟨a1, b1⟩ := hv (n / 16 % 16) (by omega)
    obtain ⟨a0, b0⟩ := hv (n % 16) (by omega)
    refine ⟨?_, by simp only [List.foldl_cons, List.foldl_nil]; rw [b3, b2, b1, b0]; omega, by simp⟩
    intro c hc
    simp only [List.mem_cons, List.mem_singleton, List.not_mem_nil, or_false] at hc
    rcases hc with rfl | rfl | rfl | rfl <;> assumption
  · obtain ⟨a4, b4⟩ := hv (n / 16^4) (by omega)
    obtain ⟨a3, b3⟩ := hv (n / 16^3 % 16) (by omega)
    obtain ⟨a2, b2⟩ := hv (n / 16^2 % 16) (by omega)
    obtain ⟨a1, b1⟩ := hv (n / 16 % 16) (by omega)
    obtain ⟨a0, b0⟩ := hv (n % 16) (by omega)
    refine ⟨?_, by simp only [List.foldl_cons, List.foldl_nil]; rw [b4, b3, b2, b1, b0]; omega, by simp⟩
    intro c hc
    simp only [List.mem_cons, List.mem_singleton, List.not_mem_nil, or_false] at hc
    rcases hc with rfl | rfl | rfl | rfl | rfl <;> assumption
  · obtain ⟨a5, b5⟩ := hv (n / 16^5) (by omega)
    obtain ⟨a4, b4⟩ := hv (n / 16^4 % 16) (by omega)
    obtain ⟨a3, b3⟩ := hv (n / 16^3 % 16) (by omega)
    obtain ⟨a2, b2⟩ := hv (n / 16^2 % 16) (by omega)
    obtain ⟨a1, b1⟩ := hv (n / 16 % 16) (by omega)
    obtain ⟨a0, b0⟩ := hv (n % 16) (by omega)
    refine ⟨?_, by simp only [List.foldl_cons, List.foldl_nil]; rw [b5, b4, b3, b2, b1, b0]; omega, by simp⟩
    intro c hc
    simp only [List.mem_cons, List.mem_singleton, List.not_mem_nil, or_false] at hc
    rcases hc with rfl | rfl | rfl | rfl | rfl | rfl <;> assumption

theorem scanHexAux_stop (acc : Nat) (r : List Char) :
    scanHexAux acc ('_' :: r) = (acc, '_' :: r) := by
  simp [scanHexAux, isHexDigitChar]

theorem char_toNat_lt (c : Char) : c.toNat < 16^6 := by
  rcases c.valid with h | ⟨h1, h2⟩
  · show c.val.toNat < 16^6
    omega
  · show c.val.toNat < 16^6
    omega

theorem unescSeqTail_escSeq (c : Char) (rest : List Char) :
    unescSeqTail (toHexChars c.toNat ++ '_' :: '_' :: rest) = some (c.toNat, rest) := by
  obtain ⟨hdig, hval, hne⟩ := toHexChars_spec c.toNat (char_toNat_lt c)
  rcases hto : toHexChars c.toNat with _ | ⟨d, ds⟩
  · exact absurd hto hne
  · rw [hto] at hdig hval
    rw [List.cons_append]
    simp only [unescSeqTail, hdig d (List.mem_cons_self d ds), if_true]
    rw [scanHexAux_digits ds ('_' :: '_' :: rest) (hexCharVal d)
      (fun x hx => hdig x (List.mem_cons_of_mem d hx))]
    rw [scanHexAux_stop]
    simp only [List.foldl_cons] at hval
    have hz : (0 : Nat) * 16 + hexCharVal d = hexCharVal d := by omega
    rw [hz] at hval
    rw [hval]
    rfl

theorem renderTags_nil : renderTags [] = [] := rfl

theorem renderTags_lit_cons (c : Char) (ts : List EscTag) :
    renderTags (.lit c :: ts) = c :: renderTags ts := by
  simp [renderTags, renderTag]

theorem renderTags_esc_cons (c : Char) (ts : List EscTag) :
    renderTags (.esc c :: ts) =
      '_' :: '_' :: '0' :: 'x' :: (toHexChars c.toNat ++ ('_' :: '_' :: renderTags ts)) := by
  simp [renderTags, renderTag, escSeq, List.append_assoc]

theorem takeEsc_lit_none (c : Char) (ts : List EscTag)
    (hOK : c = '_' → ts.head? ≠ some (.lit '_')) :
    takeEsc (c :: renderTags ts) = none := by
  rcases ts with _ | ⟨t, ts'⟩
  · rfl
  · rcases t with ⟨d⟩ | ⟨d⟩
    · rw [renderTags_lit_cons]
      rcases hr : renderTags ts' with _ | ⟨e, rest⟩
      · rfl
      · rcases rest with _ | ⟨f, rest2⟩
        · rfl
        · show takeEsc (c :: d :: e :: f :: rest2) = none
          simp only [takeEsc]
          rw [if_neg]
          intro ⟨hc, hd, _, _⟩
          exact hOK hc (by rw [hd]; rfl)
    · rw [renderTags_esc_cons]
      show takeEsc (c :: '_' :: '_' :: '0' :: _) = none
      simp only [takeEsc]
      rw [if_neg]
      intro ⟨_, _, h3, _⟩
      exact absurd h3 (by decide)

theorem renderTags_length_pos (t : EscTag) (ts : List EscTag) :
    0 < (renderTags (t :: ts)).length := by
  rcases t with ⟨c⟩ | ⟨c⟩
  · rw [renderTags_lit_cons]; simp
  · rw [renderTags_esc_cons]; simp

theorem hexUnescapeGo_renderTags (ts : List EscTag) (fuel : Nat)
    (hOK : ts.Chain' (fun a b => a = .lit '_' → b ≠ .lit '_'))
    (hfuel : (renderTags ts).length ≤ fuel) :
    hexUnescapeGo fuel (renderTags ts) = ts.map tagChar := by
  induction ts generalizing fuel with
  | nil =>
    rcases fuel with _ | fuel <;> rfl
  | cons t ts ih =>
    have hOK' : ts.Chain' (fun a b => a = .lit '_' → b ≠ .lit '_') := hOK.tail
    have hhead : ∀ b, ts.head? = some b → (t = .lit '_' → b ≠ .lit '_') :=
      fun b hb => (List.chain'_cons'.1 hOK).1 b hb
    rcases fuel with _ | fuel
    · have := renderTags_length_pos t ts
      omega
    · rcases t with ⟨c⟩ | ⟨c⟩
      · -- literal block
        have hnone : takeEsc (c :: renderTags ts) = none := by
          apply takeEsc_lit_none
          intro hc hhd
          rcases ts with _ | ⟨b, ts2⟩
          · simp at hhd
          · exact hhead b rfl (by rw [hc]) (by simpa using hhd)
        rw [renderTags_lit_cons]
        simp only [hexUnescapeGo, hnone]
        have hlen : (renderTags ts).length ≤ fuel := by
          rw [renderTags_lit_cons] at hfuel
          simpa using hfuel
        rw [ih fuel hOK' hlen, List.map_cons]
        rfl
      · -- escaped block
        have htake : takeEsc ('_' :: '_' :: '0' :: 'x' ::
            (toHexChars c.toNat ++ ('_' :: '_' :: renderTags ts))) =
            some (c.toNat, renderTags ts) := by
          simp only [takeEsc]
          split
          · exact unescSeqTail_escSeq c (renderTags ts)
          · rename_i hcond
            exact absurd (by decide) hcond
        rw [renderTags_esc_cons]
        simp only [hexUnescapeGo, htake]
        have hlen : (renderTags ts).length ≤ fuel := by
          rw [renderTags_esc_cons] at hfuel
          simp only [List.length_cons, List.length_append] at hfuel
          omega
        rw [ih fuel hOK' hlen, Char.ofNat_toNat, List.map_cons]
        rfl

theorem hexEscapeList_eq_renderTags (cond : List Char → Nat → Bool) (r : List Char) :
    hexEscapeList cond r = renderTags (escTags cond r) := by
  unfold hexEscapeList renderTags escTags
  rw [List.map_map]
  have hf : (renderTag ∘ fun i =>
      if cond r i then EscTag.esc (r.getD i ' ') else EscTag.lit (r.getD i ' ')) =
      fun i => if cond r i then escSeq (r.getD i ' ') else [r.getD i ' '] := by
    funext i
    by_cases h : cond r i <;> simp [h, renderTag]
  rw [hf]

theorem map_tagChar_escTags (cond : List Char → Nat → Bool) (r : List Char) :
    (escTags cond r).map tagChar = r := by
  unfold escTags
  rw [List.map_map]
  have hf : (tagChar ∘ fun i =>
      if cond r i then EscTag.esc (r.getD i ' ') else EscTag.lit (r.getD i ' ')) =
      fun i => r.getD i ' ' := by
    funext i
    by_cases h : cond r i <;> simp [h, tagChar]
  rw [hf, map_getD_range]

theorem escTags_chain (cond : List Char → Nat → Bool) (r : List Char)
    (h : ∀ i < r.length - 1, ¬(r.getD i ' ' = '_' ∧ r.getD (i+1) ' ' = '_')) :
    (escTags cond r).Chain' (fun a b => a = .lit '_' → b ≠ .lit '_') := by
  unfold escTags
  rw [List.chain'_map]
  rcases hlen : r.length with _ | n
  · simp
  · rw [List.chain'_range_succ]
    intro m hm hlit1 hlit2
    have h1 : r.getD m ' ' = '_' := by
      by_cases hc : cond r m
      · rw [if_pos hc] at hlit1; simp at hlit1
      · rw [if_neg hc] at hlit1; exact EscTag.lit.inj hlit1
    have h2 : r.getD (m+1) ' ' = '_' := by
      by_cases hc : cond r (m+1)
      · rw [if_pos hc] at hlit2; simp at hlit2
      · rw [if_neg hc] at hlit2; exact EscTag.lit.inj hlit2
    exact h m (by omega) ⟨h1, h2⟩

/-- Round trip of the key codec for keys with no two consecutive underscore
runes (so no substring of the key can collide with an escape marker). -/
theorem codec_roundtrip_aux (s : String)
    (h : ∀ i < s.toList.length - 1,
      ¬(s.toList.getD i ' ' = '_' ∧ s.toList.getD (i+1) ' ' = '_')) :
    unescapeBlobKey (escapeBlobKey s) = s := by
  simp only [escapeBlobKey, unescapeBlobKey]
  rw [if_neg (by simp [osPathSeparator]), if_neg (by simp [osPathSeparator])]
  rw [List.toList_asString, hexEscapeList_eq_renderTags]
  unfold hexUnescapeList
  rw [hexUnescapeGo_renderTags (escTags escapeBlobKeyCond s.toList)
    (renderTags (escTags escapeBlobKeyCond s.toList)).length
    (escTags_chain escapeBlobKeyCond s.toList h) (Nat.le_refl _)]
  rw [map_tagChar_escTags, String.asString_toList]

/-- C2 (corrected).  The claim asserts `unescapeBlobKey (escapeBlobKey k) = k`
for every valid UTF-8 key; that fails for keys containing escape-marker
shaped substrings (see the counterexample), because the escaping predicate
leaves `_` unescaped.  Amended: the round trip holds for every key with no
two consecutive underscore runes; `escapeBlobKey` is total by construction;
and the escaping predicate selects control characters, a trailing slash, the
slash ending a `".."` segment, and the slash ending a `"//"` sequence. -/
theorem C2_codec_roundtrip_and_escaping :
    (∀ s : String, (∀ i < s.toList.length - 1,
        ¬(s.toList.getD i ' ' = '_' ∧ s.toList.getD (i+1) ' ' = '_')) →
      unescapeBlobKey (escapeBlobKey s) = s) ∧
    (∀ (r : List Char) (i : Nat), (r.getD i ' ').toNat < 32 →
      escapeBlobKeyCond r i = true) ∧
    (∀ (r : List Char) (i : Nat), r.getD i ' ' = '/' → i = r.length - 1 →
      escapeBlobKeyCond r i = true) ∧
    (∀ (r : List Char) (i : Nat), 1 < i → r.getD i ' ' = '/' →
      r.getD (i-1) ' ' = '.' → r.getD (i-2) ' ' = '.' →
      escapeBlobKeyCond r i = true) ∧
    (∀ (r : List Char) (i : Nat), 0 < i → r.getD i ' ' = '/' →
      r.getD (i-1) ' ' = '/' → escapeBlobKeyCond r i = true) := by
  refine ⟨codec_roundtrip_aux, ?_, ?_, ?_, ?_⟩
  · intro r i h
    simp only [escapeBlobKeyCond]
    split_ifs <;> simp_all
  · intro r i h1 h2
    simp only [escapeBlobKeyCond]
    split_ifs <;> simp_all
  · intro r i h1 h2 h3 h4
    simp only [escapeBlobKeyCond]
    split_ifs <;> simp_all
  · intro r i h1 h2 h3
    simp only [escapeBlobKeyCond]
    split_ifs <;> simp_all

/-- C2 counterexample: the round trip fails as stated on the valid UTF-8 key
`"__0x2f__"`, which escapes to itself and decodes to `"/"`. -/
theorem C2_counterexample :
    unescapeBlobKey (escapeBlobKey "__0x2f__") ≠ "__0x2f__" := by decide

/-- Witness for C2: the amended round trip and the escaping predicate
evaluated at concrete inputs. -/
theorem C2_witness :
    unescapeBlobKey (escapeBlobKey "a-0/b.txt") = "a-0/b.txt" ∧
    escapeBlobKeyCond ['\n'] 0 = true ∧
    escapeBlobKeyCond ['x', '/'] 1 = true ∧
    escapeBlobKeyCond ['.', '.', '.', '/'] 3 = true ∧
    escapeBlobKeyCond ['d', '/', '/'] 2 = true :=
  ⟨C2_codec_roundtrip_and_escaping.1 "a-0/b.txt" (by decide),
   C2_codec_roundtrip_and_escaping.2.1 ['\n'] 0 (by decide),
   C2_codec_roundtrip_and_escaping.2.2.1 ['x', '/'] 1 (by decide) (by decide),
   C2_codec_roundtrip_and_escaping.2.2.2.1 ['.', '.', '.', '/'] 3 (by decide) (by decide)
     (by decide) (by decide),
   C2_codec_roundtrip_and_escaping.2.2.2.2 ['d', '/', '/'] 2 (by decide) (by decide) (by decide)⟩

/-- Kernel-reducible replacement for `String.endsWith`. -/
def strEndsWith (s suffix : String) : Bool :=
  suffix.toList.isSuffixOf s.toList

/-- Kernel-reducible replacement for `String.startsWith` (`strings.HasPrefix`). -/
def strHasPre (s pre : String) : Bool :=
  pre.toList.isPrefixOf s.toList

/-- Kernel-reducible replacement for `String.drop`. -/
def strDrop (s : String) (n : Nat) : String :=
  (s.toList.drop n).asString

/-- Kernel-reducible replacement for `String.take`. -/
def strTake (s : String) (n : Nat) : String :=
  (s.toList.take n).asString

/-! ## Filesystem model

A flat association list from slash-separated paths to file data.  Side
records (`.attrs` files) and multipart manifests (`multipart.json`) are kept
in the same store as the content files they accompany; their JSON
serialization is abstracted into typed variants of `FileData`. -/

/-- Byte sequences (Go `[]byte`). -/
abbrev Bytes := List Nat

/-- Multipart manifest, `fileblobMultipartMetaV1` from the multipart source
file: schema version plus target key. -/
structure MultipartMetaV1 where
  version : String
  key : String
deriving DecidableEq

/-- Part manifest entry, `driver.ObjectPartInfo`. -/
structure ObjectPartInfo where
  number : Int
  name : String
  etag : String
  size : Int
  actualSize : Int
deriving DecidableEq

/-- Side record, `xattrs` from the fileblob attribute store. -/
structure Xattrs where
  cacheControl : String
  contentDisposition : String
  contentEncoding : String
  contentLanguage : String
  contentType : String
  metadata : List (String × String)
  md5 : Bytes
  etag : String
  parts : List ObjectPartInfo
deriving DecidableEq

/-- Zero value of `Xattrs`. -/
def Xattrs.empty : Xattrs := ⟨"", "", "", "", "", [], [], "", []⟩

/-- Contents of a stored file.  JSON-serialized structures are carried in
typed form; only byte files have modelled byte contents. -/
inductive FileData where
  | bytes (bs : Bytes)
  | meta (m : MultipartMetaV1)
  | xattr (xa : Xattrs)
deriving DecidableEq

/-- Byte contents as observed by a plain read; the serialized form of the
structured variants is not modelled. -/
def FileData.asBytes : FileData → Bytes
  | .bytes bs => bs
  | _ => []

/-- Size reported by `os.Stat`. -/
def FileData.size : FileData → Int
  | .bytes bs => (bs.length : Int)
  | _ => 0

/-- Flat file store: path to file data. -/
structure FS where
  files : List (String × FileData)
deriving DecidableEq

def FS.lookup (fs : FS) (p : String) : Option FileData :=
  (fs.files.find? (fun e => e.1 = p)).map (fun e => e.2)

/-- Create or replace the file at `p`. -/
def FS.insert (fs : FS) (p : String) (d : FileData) : FS :=
  ⟨(p, d) :: fs.files.filter (fun e => ¬ e.1 = p)⟩

/-- Remove the file at `p` (`os.Remove`); removing a missing file changes
nothing (the resulting error is ignored by all call sites modelled here). -/
def FS.remove (fs : FS) (p : String) : FS :=
  ⟨fs.files.filter (fun e => ¬ e.1 = p)⟩

/-- Remove a directory tree (`os.RemoveAll dir`): every path equal to `dir`
or strictly below it. -/
def FS.removeAll (fs : FS) (dir : String) : FS :=
  ⟨fs.files.filter (fun e => ¬ (e.1 = dir ∨ strHasPre e.1 (dir ++ "/") = true))⟩

theorem FS.lookup_insert_self (fs : FS) (p : String) (d : FileData) :
    (fs.insert p d).lookup p = some d := by
  simp [FS.lookup, FS.insert, List.find?]

theorem FS.lookup_insert_ne (fs : FS) (p q : String) (d : FileData) (h : q ≠ p) :
    (fs.insert p d).lookup q = fs.lookup q := by
  simp only [FS.lookup, FS.insert]
  rw [List.find?_cons_of_neg _ (by simpa using Ne.symm h)]
  congr 1
  induction fs.files with
  | nil => rfl
  | cons e es ih =>
    by_cases he : e.1 = p
    · rw [List.filter_cons_of_neg (by simpa using he)]
      rw [List.find?_cons_of_neg _ (by simp [he, Ne.symm h])]
      exact ih
    · rw [List.filter_cons_of_pos (by simpa using he)]
      by_cases hq : e.1 = q
      · rw [List.find?_cons_of_pos _ (by simpa using hq),
          List.find?_cons_of_pos _ (by simpa using hq)]
      · rw [List.find?_cons_of_neg _ (by simpa using hq),
          List.find?_cons_of_neg _ (by simpa using hq)]
        exact ih

theorem FS.lookup_remove_self (fs : FS) (p : String) :
    (fs.remove p).lookup p = none := by
  simp only [FS.lookup, FS.remove]
  rw [List.find?_filter]
  induction fs.files with
  | nil => rfl
  | cons e es ih => by_cases he : e.1 = p <;> simp_all [List.find?]

theorem FS.lookup_remove_ne (fs : FS) (p q : String) (h : q ≠ p) :
    (fs.remove p).lookup q = fs.lookup q := by
  simp only [FS.lookup, FS.remove]
  congr 1
  induction fs.files with
  | nil => rfl
  | cons e es ih =>
    by_cases he : e.1 = p
    · rw [List.filter_cons_of_neg (by simpa using he)]
      rw [List.find?_cons_of_neg _ (by simp [he, Ne.symm h])]
      exact ih
    · rw [List.filter_cons_of_pos (by simpa using he)]
      by_cases hq : e.1 = q
      · rw [List.find?_cons_of_pos _ (by simpa using hq),
          List.find?_cons_of_pos _ (by simpa using hq)]
      · rw [List.find?_cons_of_neg _ (by simpa using hq),
          List.find?_cons_of_neg _ (by simpa using hq)]
        exact ih

/-! ## Errors, paths, attribute side-store -/

/-- Error values surfaced by the modelled operations.  `notExist` stands for
the `os` not-found errors (`ErrorCode` maps them to NotFound); `ctxCanceled`
for `context.Canceled`; `invalidFormat` for `errInvalidFormat`;
`attrsExtRsv` for `errAttrsExt`; the multipart error structs carry the same
fields as in the source; `ioErr` for remaining modelled I/O failures. -/
inductive FErr where
  | attrsExtRsv
  | notExist (path : String)
  | ctxCanceled
  | invalidFormat
  | invalidPart (partNumber : Int) (gotETag : String)
  | partTooSmall (partNumber : Int) (partSize : Int) (partETag : String)
  | badDigest (expectedMD5 calculatedMD5 : String)
  | ioErr
deriving DecidableEq

/-- Reserved side-record suffix (`attrsExt`). -/
def attrsExt : String := ".attrs"

/-- Join two path components (`filepath.Join` restricted to the cleaned,
non-empty components this code produces). -/
def filepathJoin (a b : String) : String := a ++ "/" ++ b

/-- Transcribed from `bucket.path`: resolve the key beneath the root and
reject paths ending in the reserved suffix. -/
def bpath (dir key : String) : Except FErr String :=
  let path := filepathJoin dir (escapeBlobKey key)
  if strEndsWith path attrsExt then .error .attrsExtRsv else .ok path

/-- Transcribed from `getAttrs`: read the side record at `path + ".attrs"`,
returning the documented default (content type `application/octet-stream`)
when the file is absent; a file that does not decode as a side record is a
decode error. -/
def getAttrs (fs : FS) (path : String) : Except FErr Xattrs :=
  match fs.lookup (path ++ attrsExt) with
  | none => .ok { Xattrs.empty with contentType := "application/octet-stream" }
  | some (.xattr xa) => .ok xa
  | some _ => .error .ioErr

/-- Transcribed from `setAttrs`: write the side record at `path + ".attrs"`. -/
def setAttrs (fs : FS) (path : String) (xa : Xattrs) : FS :=
  fs.insert (path ++ attrsExt) (.xattr xa)

/-- Transcribed from `bucket.forKey`: full path, file info and attributes for
a key; `os.Stat` fails `notExist` when the content file is missing. -/
def forKey (fs : FS) (dir key : String) : Except FErr (String × FileData × Xattrs) := do
  let path ← bpath dir key
  let info ← match fs.lookup path with
    | some d => Except.ok d
    | none => Except.error (FErr.notExist path)
  let xa ← getAttrs fs path
  return (path, info, xa)

/-! ## Hashes and ETags

`crypto/md5` is taken as a parameter `md5B` of the operations that hash;
hex encoding (`encoding/hex.EncodeToString`) is concrete. -/

/-- Lower-case hex encoding of a byte sequence, two digits per byte. -/
def hexEncode (bs : Bytes) : String :=
  (bs.map (fun b => [hexDigitChar (b / 16 % 16), hexDigitChar (b % 16)])).flatten.asString

/-- Decode a hex string into bytes (`encoding/hex.DecodeString`): fails on
odd length or non-digit characters. -/
def hexDecode (s : String) : Option Bytes :=
  go s.toList
where
  go : List Char → Option Bytes
    | [] => some []
    | [_] => none
    | c1 :: c2 :: cs =>
      if isHexDigitChar c1 ∧ isHexDigitChar c2 then
        (go cs).map (fun bs => (hexCharVal c1 * 16 + hexCharVal c2) :: bs)
      else none

/-- Model of `blobutil.CanonicalizeETag`: the regex replacement strips the
quotes wrapping the ETag; on quote-free ETags it is the identity.  Modelled
as dropping leading and trailing double quotes. -/
def CanonicalizeETag (etag : String) : String :=
  (((etag.toList.dropWhile (fun c => c = '\"')).reverse.dropWhile
    (fun c => c = '\"')).reverse).asString

/-- Transcribed from `blobutil.ToS3ETag`: canonicalize, then append `"-1"`
unless already suffixed so. -/
def ToS3ETag (etag : String) : String :=
  let etag := CanonicalizeETag etag
  if strEndsWith etag "-1" then etag else etag ++ "-1"

example : CanonicalizeETag "\"abc\"" = "abc" := by decide
example : ToS3ETag "d41d8cd9" = "d41d8cd9-1" := by decide

/-! ## Single-part writer (fileblob.go `NewTypedWriter` / `writer`) -/

/-- Options passed to `NewTypedWriter` (`driver.WriterOptions`, the fields
the fileblob driver reads). -/
structure WriterOptions where
  cacheControl : String
  contentDisposition : String
  contentEncoding : String
  contentLanguage : String
  contentMD5 : Bytes
  metadata : List (String × String)
deriving DecidableEq

/-- Zero value of `WriterOptions`. -/
def WriterOptions.empty : WriterOptions := ⟨"", "", "", "", [], []⟩

/-- State of the fileblob `writer`: the context error observed by `Close`
(`ctx.Err()`, `some FErr.ctxCanceled` once the context was cancelled), the
temp file name, the final path, the pending attributes, the caller MD5 (kept
but not verified by this driver), and the bytes written so far (`md5hash`
state and temp file contents coincide with it). -/
structure Writer where
  ctxErr : Option FErr
  tmpName : String
  path : String
  attrs : Xattrs
  contentMD5 : Bytes
  written : Bytes
deriving DecidableEq

/-- Transcribed from `bucket.NewTypedWriter`: resolve the path (rejecting
the reserved suffix), create the directory (a no-op on the flat store) and a
fresh empty temp file named `tmpName` (`ioutil.TempFile` guarantees a fresh
name; freshness is a hypothesis of the theorems), and return the writer. -/
def NewTypedWriter (fs : FS) (dir key contentType : String) (opts : WriterOptions)
    (ctxErr : Option FErr) (tmpName : String) : Except FErr (Writer × FS) :=
  match bpath dir key with
  | .error e => .error e
  | .ok path =>
    let fs := fs.insert tmpName (.bytes [])
    let metadata := opts.metadata
    .ok ({ ctxErr := ctxErr, tmpName := tmpName, path := path,
           attrs := { Xattrs.empty with
             cacheControl := opts.cacheControl,
             contentDisposition := opts.contentDisposition,
             contentEncoding := opts.contentEncoding,
             contentLanguage := opts.contentLanguage,
             contentType := contentType,
             metadata := metadata },
           contentMD5 := opts.contentMD5, written := [] }, fs)

/-- Transcribed from `writer.Write`: feed the hash and append to the temp
file. -/
def Writer.write (w : Writer) (fs : FS) (p : Bytes) : Writer × FS :=
  ({ w with written := w.written ++ p }, fs.insert w.tmpName (.bytes (w.written ++ p)))

/-- Transcribed from `writer.Close`, parameterized by the `crypto/md5`
digest `md5B`.  `f.Close` succeeds; the deferred `os.Remove` of the temp
file runs on every subsequent path; a cancelled context aborts before the
side record is written; otherwise the side record is persisted for the final
path and the temp file renamed onto it. -/
def Writer.close (md5B : Bytes → Bytes) (w : Writer) (fs : FS) :
    Except FErr Unit × FS :=
  match w.ctxErr with
  | some e => (.error e, fs.remove w.tmpName)
  | none =>
    let md5sum := md5B w.written
    let attrs := { w.attrs with md5 := md5sum, etag := ToS3ETag (hexEncode md5sum) }
    let fs1 := setAttrs fs w.path attrs
    match fs1.lookup w.tmpName with
    | some d =>
      let fs2 := (fs1.remove w.tmpName).insert w.path d
      (.ok (), fs2.remove w.tmpName)
    | none =>
      (.error (.notExist w.tmpName), (fs1.remove (w.path ++ attrsExt)).remove w.tmpName)

/-! ## Range reader (fileblob.go `NewRangeReader` / `reader`) -/

/-- Reader over an object: the byte sequence successive `Read` calls yield
before end-of-data, plus the attributes captured at creation. -/
structure Reader where
  data : Bytes
  contentType : String
  size : Int
deriving DecidableEq

/-- Transcribed from `bucket.NewRangeReader`: stat and side record via
`forKey`, open the file, seek when `offset > 0` (seeking beyond the end
succeeds, as `lseek` does), and wrap in `io.LimitReader` when
`length >= 0`. -/
def NewRangeReader (fs : FS) (dir key : String) (offset length : Int) :
    Except FErr Reader :=
  match forKey fs dir key with
  | .error e => .error e
  | .ok (_, info, xa) =>
    let bs := info.asBytes
    let afterSeek := if offset > 0 then bs.drop offset.toNat else bs
    let limited := if length ≥ 0 then afterSeek.take length.toNat else afterSeek
    .ok { data := limited, contentType := xa.contentType, size := info.size }

example :
    NewRangeReader ⟨[("root/k", .bytes [7, 8, 9])]⟩ "root" "k" 0 (-1) =
      .ok ⟨[7, 8, 9], "application/octet-stream", 3⟩ := by decide
example :
    NewRangeReader ⟨[("root/k", .bytes [7, 8, 9])]⟩ "root" "k" 1 1 =
      .ok ⟨[8], "application/octet-stream", 3⟩ := by decide
example :
    NewRangeReader ⟨[("root/k", .bytes [7, 8, 9])]⟩ "root" "k" 5 (-1) =
      .ok ⟨[], "application/octet-stream", 3⟩ := by decide
example :
    NewRangeReader (⟨[]⟩ : FS) "root" "k" 0 (-1) = .error (.notExist "root/k") := by decide

theorem getAttrs_of_lookup_xattr (fs : FS) (p : String) (xa : Xattrs)
    (h : fs.lookup (p ++ attrsExt) = some (.xattr xa)) : getAttrs fs p = .ok xa := by
  simp [getAttrs, h]

theorem rangeReader_full (fs : FS) (dir key : String) (c : Bytes) (p : String)
    (xa : Xattrs) (hp : bpath dir key = .ok p) (hc : fs.lookup p = some (.bytes c))
    (hxa : getAttrs fs p = .ok xa) :
    NewRangeReader fs dir key 0 (-1) = .ok ⟨c, xa.contentType, (c.length : Int)⟩ := by
  simp only [NewRangeReader, forKey, hp, hc, hxa, bind, Except.bind, pure, Except.pure]
  norm_num [FileData.asBytes, FileData.size]

theorem rangeReader_zero_len (fs : FS) (dir key : String) (c : Bytes) (p : String)
    (xa : Xattrs) (off : Int) (hp : bpath dir key = .ok p)
    (hc : fs.lookup p = some (.bytes c)) (hxa : getAttrs fs p = .ok xa) :
    NewRangeReader fs dir key off 0 = .ok ⟨[], xa.contentType, (c.length : Int)⟩ := by
  simp only [NewRangeReader, forKey, hp, hc, hxa, bind, Except.bind, pure, Except.pure]
  norm_num [FileData.asBytes, FileData.size]

theorem rangeReader_past_end (fs : FS) (dir key : String) (c : Bytes) (p : String)
    (xa : Xattrs) (off : Int) (hp : bpath dir key = .ok p)
    (hc : fs.lookup p = some (.bytes c)) (hxa : getAttrs fs p = .ok xa)
    (hoff : (c.length : Int) < off) :
    NewRangeReader fs dir key off (-1) = .ok ⟨[], xa.contentType, (c.length : Int)⟩ := by
  simp only [NewRangeReader, forKey, hp, hc, hxa, bind, Except.bind, pure, Except.pure]
  have hpos : off > 0 := by omega
  have hdrop : c.length ≤ off.toNat := by omega
  norm_num [FileData.asBytes, FileData.size, hpos]
  omega

/-- C7 (corrected).  For an existing object of length N: a full-range read
(`offset 0`, `length -1`) yields exactly the stored content; a zero-length
read at any offset yields zero bytes and no error; but — contrary to the
claim — `NewRangeReader` with `offset > N` does not fail: `f.Seek` past the
end succeeds, so the reader is created and yields zero bytes. -/
theorem C7_range_semantics :
    (∀ (fs : FS) (dir key : String) (c : Bytes) (p : String) (xa : Xattrs),
      bpath dir key = .ok p → fs.lookup p = some (.bytes c) →
      getAttrs fs p = .ok xa →
      NewRangeReader fs dir key 0 (-1) = .ok ⟨c, xa.contentType, (c.length : Int)⟩) ∧
    (∀ (fs : FS) (dir key : String) (c : Bytes) (p : String) (xa : Xattrs) (off : Int),
      bpath dir key = .ok p → fs.lookup p = some (.bytes c) →
      getAttrs fs p = .ok xa →
      NewRangeReader fs dir key off 0 = .ok ⟨[], xa.contentType, (c.length : Int)⟩) ∧
    (∀ (fs : FS) (dir key : String) (c : Bytes) (p : String) (xa : Xattrs) (off : Int),
      bpath dir key = .ok p → fs.lookup p = some (.bytes c) →
      getAttrs fs p = .ok xa → (c.length : Int) < off →
      NewRangeReader fs dir key off (-1) = .ok ⟨[], xa.contentType, (c.length : Int)⟩) :=
  ⟨fun fs dir key c p xa hp hc hxa => rangeReader_full fs dir key c p xa hp hc hxa,
   fun fs dir key c p xa off hp hc hxa => rangeReader_zero_len fs dir key c p xa off hp hc hxa,
   fun fs dir key c p xa off hp hc hxa hoff =>
     rangeReader_past_end fs dir key c p xa off hp hc hxa hoff⟩

/-- C7 counterexample: with a three-byte object, `NewRangeReader` at offset
five succeeds with an empty reader instead of failing as claimed. -/
theorem C7_counterexample :
    NewRangeReader ⟨[("root/k", FileData.bytes [1, 2, 3])]⟩ "root" "k" 5 (-1) =
      .ok ⟨[], "application/octet-stream", 3⟩ := by decide

/-- Witness for C7: the three range behaviors at a concrete store. -/
theorem C7_witness :
    NewRangeReader ⟨[("root/k", FileData.bytes [7, 8])]⟩ "root" "k" 0 (-1) =
      .ok ⟨[7, 8], "application/octet-stream", 2⟩ ∧
    NewRangeReader ⟨[("root/k", FileData.bytes [7, 8])]⟩ "root" "k" 1 0 =
      .ok ⟨[], "application/octet-stream", 2⟩ ∧
    NewRangeReader ⟨[("root/k", FileData.bytes [7, 8])]⟩ "root" "k" 9 (-1) =
      .ok ⟨[], "application/octet-stream", 2⟩ :=
  ⟨C7_range_semantics.1 ⟨[("root/k", FileData.bytes [7, 8])]⟩ "root" "k" [7, 8] "root/k"
     { Xattrs.empty with contentType := "application/octet-stream" }
     (by decide) (by decide) (by decide),
   C7_range_semantics.2.1 ⟨[("root/k", FileData.bytes [7, 8])]⟩ "root" "k" [7, 8] "root/k"
     { Xattrs.empty with contentType := "application/octet-stream" } 1
     (by decide) (by decide) (by decide),
   C7_range_semantics.2.2 ⟨[("root/k", FileData.bytes [7, 8])]⟩ "root" "k" [7, 8] "root/k"
     { Xattrs.empty with contentType := "application/octet-stream" } 9
     (by decide) (by decide) (by decide) (by decide)⟩

/-- C1 (confirmed).  Begin a single-part write to an existing key via
`NewTypedWriter`, write some bytes, and let the context be cancelled before
`Close` finalizes: `Close` returns the cancellation error, the original
content and side record of the key are untouched (a full-range read yields
the original content), and the temp file is removed. -/
theorem C1_cancellation_atomicity :
    ∀ (md5B : Bytes → Bytes) (fs : FS) (dir key contentType : String)
      (opts : WriterOptions) (tmp : String) (c bs : Bytes) (p : String)
      (xa : Xattrs) (w : Writer) (fs1 : FS),
      bpath dir key = .ok p →
      fs.lookup p = some (.bytes c) →
      fs.lookup (p ++ attrsExt) = some (.xattr xa) →
      tmp ≠ p → tmp ≠ p ++ attrsExt →
      bs ≠ [] →
      NewTypedWriter fs dir key contentType opts (some .ctxCanceled) tmp = .ok (w, fs1) →
      (Writer.close md5B ((w.write fs1 bs).1) ((w.write fs1 bs).2)).1 =
          .error .ctxCanceled ∧
      ((Writer.close md5B ((w.write fs1 bs).1) ((w.write fs1 bs).2)).2).lookup p =
          some (.bytes c) ∧
      ((Writer.close md5B ((w.write fs1 bs).1) ((w.write fs1 bs).2)).2).lookup
          (p ++ attrsExt) = some (.xattr xa) ∧
      ((Writer.close md5B ((w.write fs1 bs).1) ((w.write fs1 bs).2)).2).lookup tmp =
          none ∧
      NewRangeReader ((Writer.close md5B ((w.write fs1 bs).1) ((w.write fs1 bs).2)).2)
          dir key 0 (-1) = .ok ⟨c, xa.contentType, (c.length : Int)⟩ := by
  intro md5B fs dir key contentType opts tmp c bs p xa w fs1
  intro hp hc hxattr htp hta hbs hw
  simp only [NewTypedWriter, hp, Except.ok.injEq, Prod.mk.injEq] at hw
  obtain ⟨hw1, hw2⟩ := hw
  subst hw2
  have hwrite : (w.write (fs.insert tmp (.bytes [])) bs) =
      ({ w with written := bs },
       (fs.insert tmp (.bytes [])).insert tmp (.bytes bs)) := by
    rw [← hw1]
    simp [Writer.write]
  rw [hwrite]
  have hctx : ({ w with written := bs } : Writer).ctxErr = some .ctxCanceled := by
    rw [← hw1]
  have htmp : ({ w with written := bs } : Writer).tmpName = tmp := by
    rw [← hw1]
  have hclose : Writer.close md5B { w with written := bs }
      ((fs.insert tmp (.bytes [])).insert tmp (.bytes bs)) =
      (.error .ctxCanceled,
       (((fs.insert tmp (.bytes [])).insert tmp (.bytes bs))).remove tmp) := by
    rw [Writer.close.eq_def, hctx, htmp]
  rw [hclose]
  have hlp : ∀ q, q ≠ tmp →
      ((((fs.insert tmp (.bytes [])).insert tmp (.bytes bs))).remove tmp).lookup q =
        fs.lookup q := by
    intro q hq
    rw [FS.lookup_remove_ne _ _ _ hq, FS.lookup_insert_ne _ _ _ _ hq,
      FS.lookup_insert_ne _ _ _ _ hq]
  refine ⟨rfl, ?_, ?_, ?_, ?_⟩
  · rw [hlp p (Ne.symm htp)]; exact hc
  · rw [hlp _ (Ne.symm hta)]; exact hxattr
  · exact FS.lookup_remove_self _ _
  · apply rangeReader_full _ _ _ _ _ _ hp
    · rw [hlp p (Ne.symm htp)]; exact hc
    · apply getAttrs_of_lookup_xattr
      rw [hlp _ (Ne.symm hta)]; exact hxattr

/-- Witness for C1: a concrete cancelled write over a one-object store. -/
theorem C1_witness :
    (Writer.close (fun _ => [0])
        ((Writer.write
          { ctxErr := some .ctxCanceled, tmpName := "root/fileblob123",
            path := "root/k", attrs := { Xattrs.empty with contentType := "text/plain" },
            contentMD5 := [], written := [] }
          (FS.insert ⟨[("root/k", FileData.bytes [1]),
            ("root/k.attrs", FileData.xattr { Xattrs.empty with contentType := "text/plain" })]⟩
            "root/fileblob123" (.bytes [])) [9, 9]).1)
        ((Writer.write
          { ctxErr := some .ctxCanceled, tmpName := "root/fileblob123",
            path := "root/k", attrs := { Xattrs.empty with contentType := "text/plain" },
            contentMD5 := [], written := [] }
          (FS.insert ⟨[("root/k", FileData.bytes [1]),
            ("root/k.attrs", FileData.xattr { Xattrs.empty with contentType := "text/plain" })]⟩
            "root/fileblob123" (.bytes [])) [9, 9]).2)).1 = .error .ctxCanceled := by
  have h := C1_cancellation_atomicity (fun _ => [0])
    ⟨[("root/k", FileData.bytes [1]),
      ("root/k.attrs", FileData.xattr { Xattrs.empty with contentType := "text/plain" })]⟩
    "root" "k" "text/plain" WriterOptions.empty "root/fileblob123" [1] [9, 9] "root/k"
    { Xattrs.empty with contentType := "text/plain" }
    { ctxErr := some .ctxCanceled, tmpName := "root/fileblob123",
      path := "root/k", attrs := { Xattrs.empty with contentType := "text/plain" },
      contentMD5 := [], written := [] }
    (FS.insert ⟨[("root/k", FileData.bytes [1]),
      ("root/k.attrs", FileData.xattr { Xattrs.empty with contentType := "text/plain" })]⟩
      "root/fileblob123" (.bytes []))
    (by decide) (by decide) (by decide) (by decide) (by decide) (by decide) (by decide)
  exact h.1

/-! ## Multipart upload (fileblob multipart source file)

`crypto/md5` and `sha256` are parameters (`md5B`, `sha256Hex`); everything
else is transcribed.  `multipartDirTmp` is not under src. -/

/-- Scratch-directory name skipped by the lister (fileblob.go). -/
def fileBlobSysTmp : String := "fileblob.sys.tmp"

/-- Modelled from the spec: `multipartDirTmp`, the scratch root used by the
multipart paths, is not under src; the spec's on-disk layout
(`<scratch-root>/<sha256(key)-hex>/<uploadID>/...`) together with the
lister's skip of `fileblob.sys.tmp` identifies it with that directory. -/
def multipartDirTmp : String := fileBlobSysTmp

/-- Manifest file name (`fsMultipartJSONFile`). -/
def fsMultipartJSONFile : String := "multipart.json"

/-- Manifest schema version in use. -/
def fsMultipartMetaCurrentVersion : String := "1"

/-- Reserved metadata key space of the engine. -/
def ReservedMetadataPrefix : String := "X-Fileblob-Internal-"

/-- Minimum part size: `5 * humanize.MiByte`. -/
def globalMinPartSize : Int := 5 * 1048576

/-- Transcribed: all parts except the last must be at least this large. -/
def isMinAllowedPartSize (size : Int) : Bool := size ≥ globalMinPartSize

/-- Transcribed from `getUploadIDDir`. -/
def getUploadIDDir (sha256Hex : String → String) (key uploadID : String) : String :=
  filepathJoin (filepathJoin multipartDirTmp (sha256Hex key)) uploadID

/-- Transcribed from `getMultipartSHADir`. -/
def getMultipartSHADir (sha256Hex : String → String) (key : String) : String :=
  filepathJoin multipartDirTmp (sha256Hex key)

/-- Requested part at completion (`driver.CompletePart`). -/
structure CompletePart where
  partNumber : Int
  etag : String
deriving DecidableEq

/-- Object descriptor returned by completion (`driver.ObjectInfo`; the
modification time is not modelled). -/
structure ObjectInfo where
  key : String
  size : Int
  md5 : Bytes
  etag : String
  isDir : Bool
deriving DecidableEq

/-- Split a rune sequence at a separator, keeping empty fields
(`strings.Split` with a one-rune separator). -/
def splitChars (sep : Char) : List Char → List (List Char)
  | [] => [[]]
  | c :: cs =>
    let r := splitChars sep cs
    if c = sep then [] :: r
    else
      match r with
      | [] => [[c]]
      | g :: gs => (c :: g) :: gs

/-- String-level split (`strings.Split(s, sep)` for one-rune separators). -/
def strSplit (s : String) (sep : Char) : List String :=
  (splitChars sep s.toList).map List.asString

example : strSplit "00001.abc.5" '.' = ["00001", "abc", "5"] := by decide
example : strSplit "a..b" '.' = ["a", "", "b"] := by decide

/-- Parse a decimal digit sequence; fails when empty or non-digit. -/
def parseDigits (ds : List Char) : Option Nat :=
  match ds with
  | [] => none
  | _ =>
    if ds.all (fun c => decide ('0' ≤ c ∧ c ≤ '9')) then
      some (ds.foldl (fun a c => a * 10 + (c.toNat - '0'.toNat)) 0)
    else none

/-- Model of `strconv.ParseInt(s, 10, 64)`: optional sign, decimal digits,
64-bit range. -/
def parseInt (s : String) : Option Int :=
  match s.toList with
  | '-' :: ds =>
    (parseDigits ds).bind (fun n =>
      if n ≤ 9223372036854775808 then some (-(n : Int)) else none)
  | '+' :: ds =>
    (parseDigits ds).bind (fun n =>
      if n ≤ 9223372036854775807 then some ((n : Int)) else none)
  | ds =>
    (parseDigits ds).bind (fun n =>
      if n ≤ 9223372036854775807 then some ((n : Int)) else none)

example : parseInt "5242880" = some 5242880 := by decide
example : parseInt "attrs" = none := by decide

/-- Zero-padded decimal of width at least five (`fmt` precision `.5` on a
decimal verb; a sign is not counted against the width). -/
def padNat5 (n : Nat) : String :=
  let s := toString n
  (List.replicate (5 - s.toList.length) '0').asString ++ s

/-- `fmt.Sprintf("%.5d", n)` for `int` arguments. -/
def pad5 (n : Int) : String :=
  if n < 0 then "-" ++ padNat5 n.natAbs else padNat5 n.toNat

example : pad5 1 = "00001" := by decide
example : pad5 123456 = "123456" := by decide

/-- Transcribed from `encodePartFile`: `%.5d.%s.%d` of number, ETag and
actual size. -/
def encodePartFile (partNumber : Int) (etag : String) (actualSize : Nat) : String :=
  pad5 partNumber ++ "." ++ etag ++ "." ++ toString actualSize

/-- Transcribed from `getPartFile`: first directory entry matching
`%.5d.%s.` for the number and ETag, else the empty string. -/
def getPartFile (entries : List String) (partNumber : Int) (etag : String) : String :=
  match entries.find? (fun e => strHasPre e (pad5 partNumber ++ "." ++ etag ++ ".")) with
  | some e => e
  | none => ""

/-- Names of the regular files directly inside `dir` (`posix.ReadDir`; the
scratch directories hold no subdirectories, so only file names arise). -/
def readDirNames (fs : FS) (dir : String) : List String :=
  fs.files.filterMap (fun e =>
    if strHasPre e.1 (dir ++ "/") then
      let rest := strDrop e.1 (dir ++ "/").toList.length
      if rest.toList.contains '/' ∨ rest = "" then none else some rest
    else none)

/-- Transcribed from `getCompleteMultipartMD5`: concatenate the hex-decoded
canonicalized per-part ETags (auxiliary collector). -/
def collectMD5Bytes : List CompletePart → Except FErr Bytes
  | [] => .ok []
  | p :: ps =>
    match hexDecode (CanonicalizeETag p.etag) with
    | none => .error .ioErr
    | some bs => (collectMD5Bytes ps).map (fun rest => bs ++ rest)

/-- Transcribed from `getCompleteMultipartMD5`: MD5 of the concatenated
per-part MD5 bytes, suffixed with `-<partCount>`. -/
def getCompleteMultipartMD5 (md5B : Bytes → Bytes) (parts : List CompletePart) :
    Except FErr String :=
  (collectMD5Bytes parts).map
    (fun bs => hexEncode (md5B bs) ++ "-" ++ toString parts.length)

/-- Transcribed from `bucket.AbortMultipartUpload`: stat the manifest —
returning the stat error when it is missing — then remove the scratch
directory (`os.Remove` of the sha directory only deletes an empty
directory; directories are implicit in the flat store, so it is a no-op). -/
def AbortMultipartUpload (sha256Hex : String → String) (fs : FS)
    (dir key uploadID : String) : Except FErr Unit × FS :=
  let fullpath := filepathJoin dir
    (filepathJoin (getUploadIDDir sha256Hex key uploadID) fsMultipartJSONFile)
  match fs.lookup fullpath with
  | none => (.error (.notExist fullpath), fs)
  | some _ =>
    (.ok (), fs.removeAll (filepathJoin dir (getUploadIDDir sha256Hex key uploadID)))

/-- Directory entries consulted by the completion loop: the scratch
directory contents minus the side-record files. -/
def completionEntries (fs : FS) (uploadDirFull : String) : List String :=
  (readDirNames fs uploadDirFull).filter (fun x => ¬ strEndsWith x attrsExt)

/-- Resolution of one requested part against the scratch directory entries
(the body of the completion loop before the size check): find the part file
by number and ETag, read the recorded actual size from the file name, stat
the part file; yields the manifest entry and the recorded size. -/
def resolvePart (fs : FS) (uploadDirFull : String) (entries : List String)
    (p : CompletePart) : Except FErr (ObjectPartInfo × Int) :=
  let partFile := getPartFile entries p.partNumber p.etag
  if partFile = "" then .error (.invalidPart p.partNumber p.etag)
  else
    let subParts := strSplit partFile '.'
    match parseInt (subParts.getLastD "") with
    | none => .error (.invalidPart p.partNumber p.etag)
    | some actualSize =>
      match fs.lookup (filepathJoin uploadDirFull partFile) with
      | none => .error (.notExist (filepathJoin uploadDirFull partFile))
      | some fd =>
        .ok ({ number := p.partNumber, name := "", etag := p.etag,
               size := fd.size, actualSize := actualSize }, actualSize)

/-- Completion loop over the (already canonicalized) parts: resolve each
part, accumulate manifest entries and the consolidated actual size, and
check every part except the last against the minimum size. -/
def completeParts (fs : FS) (uploadDirFull : String) (entries : List String) :
    List CompletePart → Except FErr (List ObjectPartInfo × Int)
  | [] => .ok ([], 0)
  | [p] =>
    match resolvePart fs uploadDirFull entries p with
    | .error e => .error e
    | .ok (info, actualSize) => .ok ([info], actualSize)
  | p :: p2 :: ps =>
    match resolvePart fs uploadDirFull entries p with
    | .error e => .error e
    | .ok (info, actualSize) =>
      if ¬ isMinAllowedPartSize actualSize then
        .error (.partTooSmall p.partNumber actualSize p.etag)
      else
        match completeParts fs uploadDirFull entries (p2 :: ps) with
        | .error e => .error e
        | .ok (infos, total) => .ok (info :: infos, actualSize + total)

/-- Copy loop of the completion: open each part file in caller order and
stream it into the writer.  On an open failure the source calls `w.Close()`
— publishing whatever was copied so far — and returns the error. -/
def copyParts (md5B : Bytes → Bytes) (uploadDirFull : String) (entries : List String) :
    Writer → FS → List CompletePart → Except FErr Unit × Writer × FS
  | w, fs, [] => (.ok (), w, fs)
  | w, fs, p :: ps =>
    let partPath := getPartFile entries p.partNumber p.etag
    match fs.lookup (filepathJoin uploadDirFull partPath) with
    | none =>
      let closed := Writer.close md5B w fs
      (.error (.notExist (filepathJoin uploadDirFull partPath)), w, closed.2)
    | some fd =>
      let wfs := w.write fs fd.asBytes
      copyParts md5B uploadDirFull entries wfs.1 wfs.2 ps

/-- Go map assignment `m[k] = v` on the association-list model. -/
def metaSet (m : List (String × String)) (k v : String) : List (String × String) :=
  (k, v) :: m.filter (fun e => ¬ e.1 = k)

/-- Transcribed from `bucket.CompleteMultipartUpload`.  Steps in source
order: manifest lookup via `forKey` and JSON decode; version and key
checks; composite digest; directory scan minus side records; ETag
canonicalization; the resolution/minimum-size loop; assembling the new
object through the ordinary writer (fresh temp file `tmpName`, context not
cancelled); re-reading the object; overwriting its side record with the
composite ETag, part manifest and consolidated size; removing the scratch
directory. -/
def CompleteMultipartUpload (md5B : Bytes → Bytes) (sha256Hex : String → String)
    (fs : FS) (dir key uploadID : String) (parts : List CompletePart)
    (tmpName : String) : Except FErr ObjectInfo × FS :=
  let uploadDir := getUploadIDDir sha256Hex key uploadID
  match forKey fs dir (filepathJoin uploadDir fsMultipartJSONFile) with
  | .error e => (.error e, fs)
  | .ok (multipartFile, _, xa) =>
    match fs.lookup multipartFile with
    | none => (.error (.notExist multipartFile), fs)
    | some (.bytes _) => (.error .ioErr, fs)
    | some (.xattr _) => (.error .ioErr, fs)
    | some (.meta multipartMeta) =>
      if multipartMeta.version ≠ fsMultipartMetaCurrentVersion then
        (.error .invalidFormat, fs)
      else if multipartMeta.key ≠ key then (.error .invalidFormat, fs)
      else
        match getCompleteMultipartMD5 md5B parts with
        | .error e => (.error e, fs)
        | .ok s3MD5 =>
          let uploadDirFull := filepathJoin dir uploadDir
          let entries := completionEntries fs uploadDirFull
          let parts := parts.map (fun p => { p with etag := CanonicalizeETag p.etag })
          match completeParts fs uploadDirFull entries parts with
          | .error e => (.error e, fs)
          | .ok (partInfos, objectActualSize) =>
            let wopts : WriterOptions :=
              { cacheControl := xa.cacheControl,
                contentDisposition := xa.contentDisposition,
                contentEncoding := xa.contentEncoding,
                contentLanguage := xa.contentLanguage,
                contentMD5 := [], metadata := xa.metadata }
            match NewTypedWriter fs dir key xa.contentType wopts none tmpName with
            | .error e => (.error e, fs)
            | .ok (w, fsW) =>
              match copyParts md5B uploadDirFull entries w fsW parts with
              | (.error e, _, fsE) => (.error e, fsE)
              | (.ok _, w2, fs2) =>
                match Writer.close md5B w2 fs2 with
                | (.error e, fs3) => (.error e, fs3)
                | (.ok _, fs3) =>
                  match forKey fs3 dir key with
                  | .error e => (.error e, fs3)
                  | .ok (objectPath, finfo, xa2) =>
                    let xa2 := { xa2 with
                      etag := s3MD5, parts := partInfos,
                      metadata := metaSet xa2.metadata
                        (ReservedMetadataPrefix ++ "actual-size")
                        (toString objectActualSize) }
                    let fs4 := setAttrs fs3 objectPath xa2
                    let fs5 := fs4.removeAll uploadDirFull
                    (.ok { key := key, size := finfo.size, md5 := xa2.md5,
                           etag := s3MD5, isDir := false }, fs5)

example :
    (CompleteMultipartUpload (fun bs => [bs.length]) (fun _ => "H")
      ⟨[("root/fileblob.sys.tmp/H/u1/multipart.json", .meta ⟨"1", "obj"⟩),
        ("root/fileblob.sys.tmp/H/u1/00001.ab.3", .bytes [1, 2, 3])]⟩
      "root" "obj" "u1" [⟨1, "ab"⟩] "root/tmpX").1 =
    .ok ⟨"obj", 3, [3], "01-1", false⟩ := by decide

example :
    (CompleteMultipartUpload (fun bs => [bs.length]) (fun _ => "H")
      ⟨[("root/fileblob.sys.tmp/H/u1/multipart.json", .meta ⟨"1", "obj"⟩),
        ("root/fileblob.sys.tmp/H/u1/00001.ab.3", .bytes [1, 2, 3]),
        ("root/fileblob.sys.tmp/H/u1/00002.cd.4", .bytes [4, 4, 4, 4])]⟩
      "root" "obj" "u1" [⟨1, "ab"⟩, ⟨2, "cd"⟩] "root/tmpX").1 =
    .error (.partTooSmall 1 3 "ab") := by decide

theorem FS.lookup_removeAll_under (fs : FS) (d q : String)
    (h : q = d ∨ strHasPre q (d ++ "/") = true) :
    (fs.removeAll d).lookup q = none := by
  simp only [FS.lookup, FS.removeAll]
  rw [Option.map_eq_none', List.find?_eq_none]
  intro e he hq
  have hq' : e.1 = q := of_decide_eq_true hq
  rw [List.mem_filter] at he
  have hcond := he.2
  rw [decide_eq_true_eq] at hcond
  apply hcond
  rw [hq']
  exact h

/-- C8 (corrected).  Aborting an upload whose manifest has been removed (or
never existed) fails with the stat error; it is not a no-op.  When the
manifest exists, abort removes the scratch directory — including the
manifest, so a second abort of the same upload fails. -/
theorem C8_abort_missing_fails :
    (∀ (sha256Hex : String → String) (fs : FS) (dir key uploadID : String),
      fs.lookup (filepathJoin dir
        (filepathJoin (getUploadIDDir sha256Hex key uploadID) fsMultipartJSONFile)) =
          none →
      AbortMultipartUpload sha256Hex fs dir key uploadID =
        (.error (.notExist (filepathJoin dir
          (filepathJoin (getUploadIDDir sha256Hex key uploadID) fsMultipartJSONFile))),
         fs)) ∧
    (∀ (sha256Hex : String → String) (fs : FS) (dir key uploadID : String)
       (d : FileData),
      fs.lookup (filepathJoin dir
        (filepathJoin (getUploadIDDir sha256Hex key uploadID) fsMultipartJSONFile)) =
          some d →
      AbortMultipartUpload sha256Hex fs dir key uploadID =
        (.ok (), fs.removeAll (filepathJoin dir (getUploadIDDir sha256Hex key uploadID))) ∧
      ((AbortMultipartUpload sha256Hex fs dir key uploadID).2).lookup
        (filepathJoin dir
          (filepathJoin (getUploadIDDir sha256Hex key uploadID) fsMultipartJSONFile)) =
            none) := by
  constructor
  · intro sha256Hex fs dir key uploadID h
    simp only [AbortMultipartUpload, h]
  · intro sha256Hex fs dir key uploadID d h
    refine ⟨by simp only [AbortMultipartUpload, h], ?_⟩
    simp only [AbortMultipartUpload, h]
    apply FS.lookup_removeAll_under
    right
    rw [strHasPre, List.isPrefixOf_iff_prefix]
    refine ⟨fsMultipartJSONFile.toList, ?_⟩
    simp [filepathJoin, String.toList, String.data_append, List.append_assoc]

/-- C8 counterexample: aborting a never-created upload over the empty store
returns the not-found stat error instead of succeeding as a no-op. -/
theorem C8_counterexample :
    AbortMultipartUpload (fun _ => "H") ⟨[]⟩ "root" "k" "u" =
      (.error (.notExist "root/fileblob.sys.tmp/H/u/multipart.json"), ⟨[]⟩) := by
  decide

/-- Witness for C8: both branches at concrete stores. -/
theorem C8_witness :
    AbortMultipartUpload (fun _ => "H") ⟨[]⟩ "r" "k" "u" =
      (.error (.notExist "r/fileblob.sys.tmp/H/u/multipart.json"), ⟨[]⟩) ∧
    AbortMultipartUpload (fun _ => "H")
        ⟨[("r/fileblob.sys.tmp/H/u/multipart.json", .meta ⟨"1", "k"⟩)]⟩ "r" "k" "u" =
      (.ok (), (⟨[("r/fileblob.sys.tmp/H/u/multipart.json", .meta ⟨"1", "k"⟩)]⟩ : FS).removeAll
        "r/fileblob.sys.tmp/H/u") :=
  ⟨C8_abort_missing_fails.1 (fun _ => "H") ⟨[]⟩ "r" "k" "u" (by decide),
   (C8_abort_missing_fails.2 (fun _ => "H")
     ⟨[("r/fileblob.sys.tmp/H/u/multipart.json", .meta ⟨"1", "k"⟩)]⟩ "r" "k" "u"
     (.meta ⟨"1", "k"⟩) (by decide)).1⟩

theorem resolvePart_not_pts (fs : FS) (udf : String) (entries : List String)
    (p : CompletePart) (n sz : Int) (e : String) :
    resolvePart fs udf entries p ≠ .error (.partTooSmall n sz e) := by
  unfold resolvePart
  intro h
  dsimp only at h
  split at h
  · simp at h
  · split at h
    · simp at h
    · split at h
      · simp at h
      · simp at h

theorem completeParts_partTooSmall (fs : FS) (udf : String) (entries : List String) :
    ∀ (l : List CompletePart) (n sz : Int) (e : String),
    completeParts fs udf entries l = .error (.partTooSmall n sz e) →
    ∃ pre small post info asz, l = pre ++ small :: post ∧ post ≠ [] ∧
      resolvePart fs udf entries small = .ok (info, asz) ∧ asz = sz ∧
      isMinAllowedPartSize asz = false ∧ n = small.partNumber ∧ e = small.etag := by
  intro l
  induction l with
  | nil => intro n sz e h; simp [completeParts] at h
  | cons p rest ih =>
    intro n sz e h
    rcases rest with _ | ⟨p2, ps⟩
    · simp only [completeParts] at h
      split at h
      · rename_i e2 heq
        injection h with h2
        subst h2
        exact absurd heq (resolvePart_not_pts fs udf entries p n sz e)
      · simp at h
    · simp only [completeParts] at h
      split at h
      · rename_i e2 heq
        injection h with h2
        subst h2
        exact absurd heq (resolvePart_not_pts fs udf entries p n sz e)
      · rename_i info asz heq
        split at h
        · rename_i hmin
          injection h with h2
          injection h2 with ha hb hc
          refine ⟨[], p, p2 :: ps, info, asz, by simp, by simp, heq, hb, ?_, ha.symm, hc.symm⟩
          rw [Bool.not_eq_true] at hmin
          exact hmin
        · split at h
          · rename_i e2 heq2
            injection h with h2
            subst h2
            obtain ⟨pre, small, post, info2, asz2, hl, hpost, hres, hsz, hmin2, hn, he⟩ :=
              ih n sz e heq2
            exact ⟨p :: pre, small, post, info2, asz2, by rw [hl]; rfl, hpost, hres, hsz,
              hmin2, hn, he⟩
          · simp at h

theorem completeParts_fails_small (fs : FS) (udf : String) (entries : List String) :
    ∀ (pre : List CompletePart) (small : CompletePart) (post : List CompletePart)
      (info : ObjectPartInfo) (asz : Int),
    (∀ p ∈ pre, ∃ q1 q2, resolvePart fs udf entries p = .ok (q1, q2) ∧
      isMinAllowedPartSize q2 = true) →
    resolvePart fs udf entries small = .ok (info, asz) →
    isMinAllowedPartSize asz = false →
    post ≠ [] →
    completeParts fs udf entries (pre ++ small :: post) =
      .error (.partTooSmall small.partNumber asz small.etag) := by
  intro pre
  induction pre with
  | nil =>
    intro small post info asz _ hres hmin hpost
    rcases post with _ | ⟨q, qs⟩
    · exact absurd rfl hpost
    · simp only [List.nil_append, completeParts, hres]
      rw [if_pos (by simp [hmin])]
  | cons p pre' ih =>
    intro small post info asz hpre hres hmin hpost
    obtain ⟨q1, q2, hq, hqmin⟩ := hpre p (List.mem_cons_self p pre')
    have hcons : pre' ++ small :: post = (pre' ++ small :: post) := rfl
    have hne : pre' ++ small :: post ≠ [] := by
      rcases pre' with _ | _ <;> simp
    rcases hx : pre' ++ small :: post with _ | ⟨x, xs⟩
    · exact absurd hx hne
    · show completeParts fs udf entries (p :: (pre' ++ small :: post)) = _
      rw [hx]
      simp only [completeParts, hq]
      rw [if_neg (by simp [hqmin])]
      rw [← hx]
      rw [ih small post info asz
        (fun r hr => hpre r (List.mem_cons_of_mem p hr)) hres hmin hpost]

theorem collectMD5Bytes_not_pts (parts : List CompletePart) (n sz : Int) (e : String) :
    collectMD5Bytes parts ≠ .error (.partTooSmall n sz e) := by
  induction parts with
  | nil => simp [collectMD5Bytes]
  | cons p ps ih =>
    simp only [collectMD5Bytes]
    split
    · simp
    · intro h
      rcases hc : collectMD5Bytes ps with e2 | bs2
      · rw [hc] at h
        simp only [Except.map] at h
        injection h with h2
        rw [h2] at hc
        exact ih hc
      · rw [hc] at h
        simp [Except.map] at h

theorem getCompleteMultipartMD5_not_pts (md5B : Bytes → Bytes)
    (parts : List CompletePart) (n sz : Int) (e : String) :
    getCompleteMultipartMD5 md5B parts ≠ .error (.partTooSmall n sz e) := by
  unfold getCompleteMultipartMD5
  intro h
  rcases hc : collectMD5Bytes parts with e2 | bs2
  · rw [hc] at h
    simp only [Except.map] at h
    injection h with h2
    rw [h2] at hc
    exact collectMD5Bytes_not_pts parts n sz e hc
  · rw [hc] at h
    simp [Except.map] at h

theorem bpath_not_pts (dir key : String) (n sz : Int) (e : String) :
    bpath dir key ≠ .error (.partTooSmall n sz e) := by
  unfold bpath
  dsimp only
  split <;> simp

theorem getAttrs_not_pts (fs : FS) (p : String) (n sz : Int) (e : String) :
    getAttrs fs p ≠ .error (.partTooSmall n sz e) := by
  unfold getAttrs
  split <;> simp

theorem forKey_not_pts (fs : FS) (dir k : String) (n sz : Int) (e : String) :
    forKey fs dir k ≠ .error (.partTooSmall n sz e) := by
  intro h
  unfold forKey at h
  rcases hb : bpath dir k with e2 | p
  · rw [hb] at h
    simp only [bind, Except.bind] at h
    injection h with h2
    rw [h2] at hb
    exact bpath_not_pts dir k n sz e hb
  · rw [hb] at h
    simp only [bind, Except.bind] at h
    rcases hl : fs.lookup p with _ | d
    · rw [hl] at h
      simp at h
    · rw [hl] at h
      rcases ha : getAttrs fs p with e3 | xa
      · rw [ha] at h
        simp only [bind, Except.bind] at h
        injection h with h2
        rw [h2] at ha
        exact getAttrs_not_pts fs p n sz e ha
      · rw [ha] at h
        simp [bind, Except.bind, pure, Except.pure] at h

theorem newTypedWriter_not_pts (fs : FS) (dir key ct : String) (opts : WriterOptions)
    (ctxErr : Option FErr) (tmp : String) (n sz : Int) (e : String) :
    NewTypedWriter fs dir key ct opts ctxErr tmp ≠ .error (.partTooSmall n sz e) := by
  unfold NewTypedWriter
  intro h
  rcases hb : bpath dir key with e2 | p
  · rw [hb] at h
    injection h with h2
    rw [h2] at hb
    exact bpath_not_pts dir key n sz e hb
  · rw [hb] at h
    simp at h

theorem newTypedWriter_ok_ctxErr (fs : FS) (dir key ct : String) (opts : WriterOptions)
    (ctxErr : Option FErr) (tmp : String) (w : Writer) (fsW : FS)
    (h : NewTypedWriter fs dir key ct opts ctxErr tmp = .ok (w, fsW)) :
    w.ctxErr = ctxErr := by
  unfold NewTypedWriter at h
  split at h
  · simp at h
  · injection h with h2
    injection h2 with ha hb
    rw [← ha]

theorem writerClose_not_pts (md5B : Bytes → Bytes) (w : Writer) (fs : FS)
    (n sz : Int) (e : String) (hctx : w.ctxErr = none) :
    (Writer.close md5B w fs).1 ≠ .error (.partTooSmall n sz e) := by
  intro h
  unfold Writer.close at h
  rw [hctx] at h
  dsimp only at h
  split at h <;> simp at h

theorem writerWrite_ctxErr (w : Writer) (fs : FS) (p : Bytes) :
    ((w.write fs p).1).ctxErr = w.ctxErr := rfl

theorem copyParts_ctxErr (md5B : Bytes → Bytes) (udf : String) (entries : List String) :
    ∀ (l : List CompletePart) (w : Writer) (fs : FS),
    ((copyParts md5B udf entries w fs l).2.1).ctxErr = w.ctxErr := by
  intro l
  induction l with
  | nil => intro w fs; rfl
  | cons p ps ih =>
    intro w fs
    simp only [copyParts]
    split
    · rfl
    · rw [ih]
      rfl

theorem copyParts_not_pts (md5B : Bytes → Bytes) (udf : String) (entries : List String) :
    ∀ (l : List CompletePart) (w : Writer) (fs : FS) (n sz : Int) (e : String),
    (copyParts md5B udf entries w fs l).1 ≠ .error (.partTooSmall n sz e) := by
  intro l
  induction l with
  | nil => intro w fs n sz e; simp [copyParts]
  | cons p ps ih =>
    intro w fs n sz e
    simp only [copyParts]
    split
    · simp
    · exact ih _ _ n sz e

theorem completeMultipart_pts_from_loop (md5B : Bytes → Bytes)
    (sha256Hex : String → String) (fs : FS) (dir key uploadID tmp : String)
    (parts : List CompletePart) (n sz : Int) (e : String)
    (h : (CompleteMultipartUpload md5B sha256Hex fs dir key uploadID parts tmp).1 =
      .error (.partTooSmall n sz e)) :
    completeParts fs (filepathJoin dir (getUploadIDDir sha256Hex key uploadID))
      (completionEntries fs (filepathJoin dir (getUploadIDDir sha256Hex key uploadID)))
      (parts.map (fun p => { p with etag := CanonicalizeETag p.etag })) =
      .error (.partTooSmall n sz e) := by
  unfold CompleteMultipartUpload at h
  dsimp only at h
  rcases heqf : forKey fs dir
      (filepathJoin (getUploadIDDir sha256Hex key uploadID) fsMultipartJSONFile)
    with e2 | ⟨mf, fdm, xa⟩
  · rw [heqf] at h
    dsimp only at h
    injection h with h2
    rw [h2] at heqf
    exact absurd heqf (forKey_not_pts _ _ _ n sz e)
  · rw [heqf] at h
    dsimp only at h
    rcases heql : fs.lookup mf with _ | fd
    · rw [heql] at h
      simp at h
    · rw [heql] at h
      rcases fd with bs | mm | xaF
      · simp at h
      · dsimp only at h
        by_cases hv : mm.version ≠ fsMultipartMetaCurrentVersion
        · rw [if_pos hv] at h
          simp at h
        · rw [if_neg hv] at h
          by_cases hk : mm.key ≠ key
          · rw [if_pos hk] at h
            simp at h
          · rw [if_neg hk] at h
            rcases heqm5 : getCompleteMultipartMD5 md5B parts with e2 | s3
            · rw [heqm5] at h
              dsimp only at h
              injection h with h2
              rw [h2] at heqm5
              exact absurd heqm5 (getCompleteMultipartMD5_not_pts md5B parts n sz e)
            · rw [heqm5] at h
              dsimp only at h
              rcases heqc : completeParts fs
                  (filepathJoin dir (getUploadIDDir sha256Hex key uploadID))
                  (completionEntries fs
                    (filepathJoin dir (getUploadIDDir sha256Hex key uploadID)))
                  (parts.map (fun p => { p with etag := CanonicalizeETag p.etag }))
                with e2 | ⟨infos, total⟩
              · rw [heqc] at h
                dsimp only at h
                injection h with h2
                rw [h2] at heqc
                exact heqc
              · exfalso
                rw [heqc] at h
                dsimp only at h
                rcases heqW : NewTypedWriter fs dir key xa.contentType
                    ⟨xa.cacheControl, xa.contentDisposition, xa.contentEncoding,
                     xa.contentLanguage, [], xa.metadata⟩ none tmp with e2 | ⟨w, fsW⟩
                · rw [heqW] at h
                  dsimp only at h
                  injection h with h2
                  rw [h2] at heqW
                  exact absurd heqW (newTypedWriter_not_pts fs dir key _ _ none tmp n sz e)
                · rw [heqW] at h
                  dsimp only at h
                  rcases heqcp : copyParts md5B
                      (filepathJoin dir (getUploadIDDir sha256Hex key uploadID))
                      (completionEntries fs
                        (filepathJoin dir (getUploadIDDir sha256Hex key uploadID)))
                      w fsW (parts.map (fun p => { p with etag := CanonicalizeETag p.etag }))
                    with ⟨cpr, w2, fs2⟩
                  rcases cpr with e2 | u
                  · rw [heqcp] at h
                    dsimp only at h
                    injection h with h2
                    have hcp1 : (copyParts md5B
                        (filepathJoin dir (getUploadIDDir sha256Hex key uploadID))
                        (completionEntries fs
                          (filepathJoin dir (getUploadIDDir sha256Hex key uploadID)))
                        w fsW (parts.map (fun p => { p with etag := CanonicalizeETag p.etag }))).1 =
                        Except.error (FErr.partTooSmall n sz e) := by
                      rw [heqcp, h2]
                    exact absurd hcp1 (copyParts_not_pts md5B _ _ _ w fsW n sz e)
                  · rw [heqcp] at h
                    dsimp only at h
                    rcases heqcl : Writer.close md5B w2 fs2 with ⟨clr, fs3⟩
                    rcases clr with e2 | u2
                    · rw [heqcl] at h
                      dsimp only at h
                      injection h with h2
                      have hctx : w2.ctxErr = none := by
                        have hc1 := copyParts_ctxErr md5B
                          (filepathJoin dir (getUploadIDDir sha256Hex key uploadID))
                          (completionEntries fs
                            (filepathJoin dir (getUploadIDDir sha256Hex key uploadID)))
                          (parts.map (fun p => { p with etag := CanonicalizeETag p.etag })) w fsW
                        rw [heqcp] at hc1
                        dsimp only at hc1
                        rw [hc1]
                        exact newTypedWriter_ok_ctxErr fs dir key _ _ none tmp w fsW heqW
                      have hcl1 : (Writer.close md5B w2 fs2).1 =
                          Except.error (FErr.partTooSmall n sz e) := by
                        rw [heqcl, h2]
                      exact absurd hcl1 (writerClose_not_pts md5B w2 fs2 n sz e hctx)
                    · rw [heqcl] at h
                      dsimp only at h
                      rcases heqf2 : forKey fs3 dir key with e2 | ⟨op, finfo, xa2⟩
                      · rw [heqf2] at h
                        dsimp only at h
                        injection h with h2
                        rw [h2] at heqf2
                        exact absurd heqf2 (forKey_not_pts _ _ _ n sz e)
                      · rw [heqf2] at h
                        simp at h
      · simp at h
/-- C3 (confirmed).  First conjunct: a completion whose (canonicalized)
parts list splits as `pre ++ small :: post` with `post` nonempty — so
`small` is not the last part — where every part of `pre` resolves with at
least the minimum size and `small` resolves below it, fails with
`PartTooSmall` carrying that part's number and recorded size, and leaves
the store — in particular the destination object — completely unchanged.
Second conjunct: a `PartTooSmall` failure can only arise from a non-last
part that resolved below the minimum, so the check is never applied to the
last part. -/
theorem C3_part_too_small :
    (∀ (md5B : Bytes → Bytes) (sha256Hex : String → String) (fs : FS)
       (dir key uploadID tmp : String) (parts pre post : List CompletePart)
       (small : CompletePart) (info : ObjectPartInfo) (asz : Int)
       (mf : String) (fdm : FileData) (xa : Xattrs) (s3 : String),
      forKey fs dir (filepathJoin (getUploadIDDir sha256Hex key uploadID)
        fsMultipartJSONFile) = .ok (mf, fdm, xa) →
      fs.lookup mf = some (.meta ⟨fsMultipartMetaCurrentVersion, key⟩) →
      getCompleteMultipartMD5 md5B parts = .ok s3 →
      parts.map (fun p => { p with etag := CanonicalizeETag p.etag }) =
        pre ++ small :: post →
      (∀ p ∈ pre, ∃ q1 q2, resolvePart fs
        (filepathJoin dir (getUploadIDDir sha256Hex key uploadID))
        (completionEntries fs (filepathJoin dir (getUploadIDDir sha256Hex key uploadID)))
        p = .ok (q1, q2) ∧ isMinAllowedPartSize q2 = true) →
      resolvePart fs (filepathJoin dir (getUploadIDDir sha256Hex key uploadID))
        (completionEntries fs (filepathJoin dir (getUploadIDDir sha256Hex key uploadID)))
        small = .ok (info, asz) →
      isMinAllowedPartSize asz = false →
      post ≠ [] →
      CompleteMultipartUpload md5B sha256Hex fs dir key uploadID parts tmp =
        (.error (.partTooSmall small.partNumber asz small.etag), fs)) ∧
    (∀ (md5B : Bytes → Bytes) (sha256Hex : String → String) (fs : FS)
       (dir key uploadID tmp : String) (parts : List CompletePart)
       (n sz : Int) (e : String),
      (CompleteMultipartUpload md5B sha256Hex fs dir key uploadID parts tmp).1 =
        .error (.partTooSmall n sz e) →
      ∃ pre small post info asz,
        parts.map (fun p => { p with etag := CanonicalizeETag p.etag }) =
          pre ++ small :: post ∧ post ≠ [] ∧
        resolvePart fs (filepathJoin dir (getUploadIDDir sha256Hex key uploadID))
          (completionEntries fs
            (filepathJoin dir (getUploadIDDir sha256Hex key uploadID)))
          small = .ok (info, asz) ∧ asz = sz ∧
        isMinAllowedPartSize asz = false ∧ n = small.partNumber ∧ e = small.etag) := by
  constructor
  · intro md5B sha256Hex fs dir key uploadID tmp parts pre post small info asz
      mf fdm xa s3 hfk hmeta hmd5 hcanon hpre hres hmin hpost
    unfold CompleteMultipartUpload
    dsimp only
    rw [hfk]
    dsimp only
    rw [hmeta]
    dsimp only
    rw [if_neg (by simp)]
    rw [if_neg (by simp)]
    rw [hmd5]
    dsimp only
    rw [hcanon]
    rw [completeParts_fails_small fs
      (filepathJoin dir (getUploadIDDir sha256Hex key uploadID))
      (completionEntries fs (filepathJoin dir (getUploadIDDir sha256Hex key uploadID)))
      pre small post info asz hpre hres hmin hpost]
  · intro md5B sha256Hex fs dir key uploadID tmp parts n sz e h
    exact completeParts_partTooSmall fs
      (filepathJoin dir (getUploadIDDir sha256Hex key uploadID))
      (completionEntries fs (filepathJoin dir (getUploadIDDir sha256Hex key uploadID)))
      (parts.map (fun p => { p with etag := CanonicalizeETag p.etag })) n sz e
      (completeMultipart_pts_from_loop md5B sha256Hex fs dir key uploadID tmp parts n sz e h)

/-- Concrete multipart fixture: a manifest for key `obj` plus a three-byte
part 1 and a four-byte part 2 in the scratch directory. -/
def mpFixture : FS :=
  ⟨[("root/fileblob.sys.tmp/H/u1/multipart.json", .meta ⟨"1", "obj"⟩),
    ("root/fileblob.sys.tmp/H/u1/00001.ab.3", .bytes [1, 2, 3]),
    ("root/fileblob.sys.tmp/H/u1/00002.cd.4", .bytes [4, 4, 4, 4])]⟩

/-- Witness for C3: completing with a three-byte non-last part fails with
`PartTooSmall 1 3` and leaves the store unchanged. -/
theorem C3_witness :
    CompleteMultipartUpload (fun bs => [bs.length]) (fun _ => "H") mpFixture
      "root" "obj" "u1" [⟨1, "ab"⟩, ⟨2, "cd"⟩] "root/tmpX" =
      (.error (.partTooSmall 1 3 "ab"), mpFixture) ∧
    (∃ pre small post info asz,
      ([⟨1, "ab"⟩, ⟨2, "cd"⟩] : List CompletePart).map
        (fun p => { p with etag := CanonicalizeETag p.etag }) = pre ++ small :: post ∧
      post ≠ [] ∧
      resolvePart mpFixture
        (filepathJoin "root" (getUploadIDDir (fun _ => "H") "obj" "u1"))
        (completionEntries mpFixture
          (filepathJoin "root" (getUploadIDDir (fun _ => "H") "obj" "u1")))
        small = .ok (info, asz) ∧ asz = 3 ∧
      isMinAllowedPartSize asz = false ∧ (1 : Int) = small.partNumber ∧
      "ab" = small.etag) :=
  ⟨C3_part_too_small.1 (fun bs => [bs.length]) (fun _ => "H") mpFixture
    "root" "obj" "u1" "root/tmpX" [⟨1, "ab"⟩, ⟨2, "cd"⟩] [] [⟨2, "cd"⟩] ⟨1, "ab"⟩
    ⟨1, "", "ab", 3, 3⟩ 3 "root/fileblob.sys.tmp/H/u1/multipart.json"
    (.meta ⟨"1", "obj"⟩) { Xattrs.empty with contentType := "application/octet-stream" }
    "02-2" (by decide) (by decide) (by decide) (by decide) (by simp) (by decide)
    (by decide) (by simp),
   C3_part_too_small.2 (fun bs => [bs.length]) (fun _ => "H") mpFixture
    "root" "obj" "u1" "root/tmpX" [⟨1, "ab"⟩, ⟨2, "cd"⟩] 1 3 "ab" (by decide)⟩

theorem collectMD5Bytes_decodes (parts : List CompletePart) (bss : List Bytes)
    (h : List.Forall₂ (fun p bs => hexDecode (CanonicalizeETag p.etag) = some bs)
      parts bss) :
    collectMD5Bytes parts = .ok bss.flatten := by
  induction h with
  | nil => rfl
  | cons hpb _ ih =>
    simp only [collectMD5Bytes, hpb, ih, Except.map, List.flatten_cons]

theorem completeMultipart_ok_etag (md5B : Bytes → Bytes)
    (sha256Hex : String → String) (fs : FS) (dir key uploadID tmp : String)
    (parts : List CompletePart) (s : String) (info : ObjectInfo)
    (hm : getCompleteMultipartMD5 md5B parts = .ok s)
    (h : (CompleteMultipartUpload md5B sha256Hex fs dir key uploadID parts tmp).1 =
      .ok info) :
    info.etag = s := by
  unfold CompleteMultipartUpload at h
  dsimp only at h
  rcases heqf : forKey fs dir
      (filepathJoin (getUploadIDDir sha256Hex key uploadID) fsMultipartJSONFile)
    with e2 | ⟨mf, fdm, xa⟩
  · rw [heqf] at h
    simp at h
  · rw [heqf] at h
    dsimp only at h
    rcases heql : fs.lookup mf with _ | fd
    · rw [heql] at h
      simp at h
    · rw [heql] at h
      rcases fd with bs | mm | xaF
      · simp at h
      · dsimp only at h
        by_cases hv : mm.version ≠ fsMultipartMetaCurrentVersion
        · rw [if_pos hv] at h
          simp at h
        · rw [if_neg hv] at h
          by_cases hk : mm.key ≠ key
          · rw [if_pos hk] at h
            simp at h
          · rw [if_neg hk] at h
            rw [hm] at h
            dsimp only at h
            rcases heqc : completeParts fs
                (filepathJoin dir (getUploadIDDir sha256Hex key uploadID))
                (completionEntries fs
                  (filepathJoin dir (getUploadIDDir sha256Hex key uploadID)))
                (parts.map (fun p => { p with etag := CanonicalizeETag p.etag }))
              with e2 | ⟨infos, total⟩
            · rw [heqc] at h
              simp at h
            · rw [heqc] at h
              dsimp only at h
              rcases heqW : NewTypedWriter fs dir key xa.contentType
                  ⟨xa.cacheControl, xa.contentDisposition, xa.contentEncoding,
                   xa.contentLanguage, [], xa.metadata⟩ none tmp with e2 | ⟨w, fsW⟩
              · rw [heqW] at h
                simp at h
              · rw [heqW] at h
                dsimp only at h
                rcases heqcp : copyParts md5B
                    (filepathJoin dir (getUploadIDDir sha256Hex key uploadID))
                    (completionEntries fs
                      (filepathJoin dir (getUploadIDDir sha256Hex key uploadID)))
                    w fsW (parts.map (fun p => { p with etag := CanonicalizeETag p.etag }))
                  with ⟨cpr, w2, fs2⟩
                rcases cpr with e2 | u
                · rw [heqcp] at h
                  simp at h
                · rw [heqcp] at h
                  dsimp only at h
                  rcases heqcl : Writer.close md5B w2 fs2 with ⟨clr, fs3⟩
                  rcases clr with e2 | u2
                  · rw [heqcl] at h
                    simp at h
                  · rw [heqcl] at h
                    dsimp only at h
                    rcases heqf2 : forKey fs3 dir key with e2 | ⟨op, finfo, xa2⟩
                    · rw [heqf2] at h
                      simp at h
                    · rw [heqf2] at h
                      dsimp only at h
                      injection h with h2
                      rw [← h2]
      · simp at h

/-- C4 (confirmed).  First conjunct: `getCompleteMultipartMD5` over parts
whose canonicalized ETags hex-decode to byte strings `m1..mn` yields the
hex MD5 of their concatenation suffixed `-<n>`.  Second conjunct: every
successful `CompleteMultipartUpload` reports exactly that composite digest
as the resulting object's ETag. -/
theorem C4_composite_etag :
    (∀ (md5B : Bytes → Bytes) (parts : List CompletePart) (bss : List Bytes),
      List.Forall₂ (fun p bs => hexDecode (CanonicalizeETag p.etag) = some bs)
        parts bss →
      getCompleteMultipartMD5 md5B parts =
        .ok (hexEncode (md5B bss.flatten) ++ "-" ++ toString parts.length)) ∧
    (∀ (md5B : Bytes → Bytes) (sha256Hex : String → String) (fs : FS)
       (dir key uploadID tmp : String) (parts : List CompletePart)
       (s : String) (info : ObjectInfo),
      getCompleteMultipartMD5 md5B parts = .ok s →
      (CompleteMultipartUpload md5B sha256Hex fs dir key uploadID parts tmp).1 =
        .ok info →
      info.etag = s) := by
  constructor
  · intro md5B parts bss h
    unfold getCompleteMultipartMD5
    rw [collectMD5Bytes_decodes parts bss h]
    rfl
  · intro md5B sha256Hex fs dir key uploadID tmp parts s info hm h
    exact completeMultipart_ok_etag md5B sha256Hex fs dir key uploadID tmp parts s
      info hm h

/-- Witness for C4: the composite digest of two hex ETags, and the ETag of a
concrete successful completion. -/
theorem C4_witness :
    getCompleteMultipartMD5 (fun bs => [bs.length]) [⟨1, "ab"⟩, ⟨2, "cd"⟩] =
      .ok (hexEncode ((fun (bs : Bytes) => [bs.length]) ([[171], [205]] : List Bytes).flatten) ++
        "-" ++ toString ([⟨1, "ab"⟩, ⟨2, "cd"⟩] : List CompletePart).length) ∧
    ({ key := "obj", size := 3, md5 := [3], etag := "01-1", isDir := false } :
      ObjectInfo).etag = "01-1" :=
  ⟨C4_composite_etag.1 (fun bs => [bs.length]) [⟨1, "ab"⟩, ⟨2, "cd"⟩] [[171], [205]]
    (List.Forall₂.cons (by decide) (List.Forall₂.cons (by decide) List.Forall₂.nil)),
   C4_composite_etag.2 (fun bs => [bs.length]) (fun _ => "H")
    ⟨[("root/fileblob.sys.tmp/H/u1/multipart.json", .meta ⟨"1", "obj"⟩),
      ("root/fileblob.sys.tmp/H/u1/00001.ab.3", .bytes [1, 2, 3])]⟩
    "root" "obj" "u1" "root/tmpX" [⟨1, "ab"⟩] "01-1"
    { key := "obj", size := 3, md5 := [3], etag := "01-1", isDir := false }
    (by decide) (by decide)⟩

/-! ## Paginated listing (fileblob.go `ListPaged`)

The recursive directory walk is represented by its visit sequence:
`filepath.Walk` hands the callback every path in depth-first order with the
children of each directory sorted by name, and `SkipDir` from a directory
callback prunes that directory's subtree — the contiguous following block
of entries below its path.  `io.EOF` (`stop`) aborts the walk.  The
callback transcribes the walk closure of `ListPaged`; entry sizes stand for
`os.FileInfo.Size`, while the modification time and the side-record MD5 and
ETag copied into results do not influence control flow and are not
modelled. -/

/-- Lexicographic order on rune sequences (Go bytewise string comparison;
UTF-8 preserves code-point order). -/
def charListLt : List Char → List Char → Bool
  | [], [] => false
  | [], _ :: _ => true
  | _ :: _, [] => false
  | a :: as, b :: bs => if a < b then true else if b < a then false else charListLt as bs

/-- Strict string comparison `a < b`. -/
def strLtB (a b : String) : Bool := charListLt a.toList b.toList

/-- String comparison `a ≤ b`. -/
def strLeB (a b : String) : Bool := ! strLtB b a

example : strLtB "a-0" "a-0a" = true := by decide
example : strLeB "a-1" "a-0" = false := by decide

/-- Index of the first occurrence of `pat` in `l` (`strings.Index`). -/
def idxOfSub (pat : List Char) : List Char → Option Nat
  | [] => if pat.isPrefixOf [] then some 0 else none
  | c :: t =>
    if pat.isPrefixOf (c :: t) then some 0
    else (idxOfSub pat t).map (fun i => i + 1)

/-- String-level first-occurrence index. -/
def strIndex (s pat : String) : Option Nat := idxOfSub pat.toList s.toList

example : strIndex "dir/a.txt" "/" = some 3 := by decide
example : strIndex "f.txt" "/" = none := by decide

/-- Default page size when the caller passes zero. -/
def defaultPageSize : Int := 1000

/-- Options of a `ListPaged` call (`driver.ListOptions`; `pfx` is the
`Prefix` field). -/
structure ListOpts where
  pfx : String
  delimiter : String
  pageSize : Int
  pageToken : String
deriving DecidableEq

/-- Result entry (`driver.ListObject`; key, size and the directory flag). -/
structure LObj where
  key : String
  size : Int
  isDir : Bool
deriving DecidableEq

/-- Result page (`driver.ListPage`). -/
structure ListPage where
  objects : List LObj
  nextPageToken : Option String
deriving DecidableEq

/-- Walk state threaded through the callback: the last synthesized
"directory" key, the collected page, and the continuation token. -/
structure LState where
  lastPfx : String
  objects : List LObj
  nextPageToken : Option String
deriving DecidableEq

/-- Callback outcome: continue, prune this directory's subtree
(`filepath.SkipDir`), or abort the walk (`io.EOF`). -/
inductive WSig where
  | cont
  | skipDir
  | stop
deriving DecidableEq

/-- One visited path of the walk. -/
structure WalkEntry where
  path : String
  isDir : Bool
  size : Int
deriving DecidableEq

/-- Transcribed from the walk closure of `bucket.ListPaged` (fileblob.go
lines 206-300): skip side records and the root; derive the key by
unescaping the root-relative path; for directories, prune the scratch root,
prefix mismatches, and subtrees already collapsed into the last synthesized
"directory"; for files, filter by prefix, collapse by delimiter, skip keys
at or before the page token, and stop with a continuation token — the key
of the last collected entry — once the page is full. -/
def listVisit (dir : String) (opts : ListOpts) (pageSize : Int) (path : String)
    (isDir : Bool) (size : Int) (st : LState) : LState × WSig :=
  if strEndsWith path attrsExt then (st, .cont)
  else if path = dir then (st, .cont)
  else
    let key := unescapeBlobKey (strDrop path (dir.toList.length + 1))
    if isDir then
      let key := key ++ "/"
      if strHasPre key fileBlobSysTmp then (st, .skipDir)
      else if key.toList.length > opts.pfx.toList.length ∧
          ¬ strHasPre key opts.pfx then (st, .skipDir)
      else if st.lastPfx ≠ "" ∧ strHasPre key st.lastPfx then (st, .skipDir)
      else (st, .cont)
    else if ¬ strHasPre key opts.pfx then (st, .cont)
    else
      let step : Option (LObj × LState) :=
        if opts.delimiter ≠ "" then
          let keyWithoutPfx := strDrop key opts.pfx.toList.length
          match strIndex keyWithoutPfx opts.delimiter with
          | some idx =>
            let p := opts.pfx ++ strTake keyWithoutPfx (idx + opts.delimiter.toList.length)
            if p = st.lastPfx then none
            else some (⟨p, 0, true⟩, { st with lastPfx := p })
          | none => some (⟨key, size, false⟩, st)
        else some (⟨key, size, false⟩, st)
      match step with
      | none => (st, .cont)
      | some (obj, st) =>
        if opts.pageToken ≠ "" ∧ strLeB obj.key opts.pageToken then (st, .cont)
        else if (st.objects.length : Int) = pageSize then
          let tok := (st.objects.getLast?.map (fun o => o.key)).getD ""
          ({ st with nextPageToken := some tok }, .stop)
        else ({ st with objects := st.objects ++ [obj] }, .cont)

/-- Run the walk over the visit sequence.  `skipping` carries the path of a
directory whose subtree is being pruned; `stop` aborts. -/
def runWalk (cb : String → Bool → Int → LState → LState × WSig) :
    List WalkEntry → Option String → LState → LState
  | [], _, st => st
  | e :: rest, skipping, st =>
    if (match skipping with
        | some d => strHasPre e.path (d ++ "/")
        | none => false) then
      runWalk cb rest skipping st
    else
      match cb e.path e.isDir e.size st with
      | (st2, .stop) => st2
      | (st2, .skipDir) => runWalk cb rest (some e.path) st2
      | (st2, .cont) => runWalk cb rest none st2

/-- Transcribed from `bucket.ListPaged`: default the page size, run the
walk from the empty state, and return the collected page. -/
def ListPaged (entries : List WalkEntry) (dir : String) (opts : ListOpts) : ListPage :=
  let pageSize := if opts.pageSize = 0 then defaultPageSize else opts.pageSize
  let st := runWalk (listVisit dir opts pageSize) entries none ⟨"", [], none⟩
  { objects := st.objects, nextPageToken := st.nextPageToken }

/-- Visit sequence of the C6 tree: `dir/a.txt, dir/b.txt, dir2/c.txt,
f.txt` under root `root`, with a side record and a scratch directory to
exercise the skip rules. -/
def listFixture : List WalkEntry :=
  [⟨"root", true, 0⟩,
   ⟨"root/dir", true, 0⟩,
   ⟨"root/dir/a.txt", false, 2⟩,
   ⟨"root/dir/a.txt.attrs", false, 9⟩,
   ⟨"root/dir/b.txt", false, 3⟩,
   ⟨"root/dir2", true, 0⟩,
   ⟨"root/dir2/c.txt", false, 4⟩,
   ⟨"root/f.txt", false, 5⟩,
   ⟨"root/f.txt.attrs", false, 9⟩,
   ⟨"root/fileblob.sys.tmp", true, 0⟩,
   ⟨"root/fileblob.sys.tmp/H", true, 0⟩,
   ⟨"root/fileblob.sys.tmp/H/u/multipart.json", false, 7⟩]

example :
    ListPaged listFixture "root" ⟨"", "/", 0, ""⟩ =
      ⟨[⟨"dir/", 0, true⟩, ⟨"dir2/", 0, true⟩, ⟨"f.txt", 5, false⟩], none⟩ := by
  decide

/-- Visit sequence of the C5 tree: flat keys `a-0, a-1, a-2`. -/
def pageFixture : List WalkEntry :=
  [⟨"root", true, 0⟩,
   ⟨"root/a-0", false, 1⟩,
   ⟨"root/a-1", false, 1⟩,
   ⟨"root/a-2", false, 1⟩]

/-- The C5 tree after `a-0a` is inserted between pages. -/
def pageFixture2 : List WalkEntry :=
  [⟨"root", true, 0⟩,
   ⟨"root/a-0", false, 1⟩,
   ⟨"root/a-0a", false, 1⟩,
   ⟨"root/a-1", false, 1⟩,
   ⟨"root/a-2", false, 1⟩]

example :
    ListPaged pageFixture "root" ⟨"", "", 1, ""⟩ =
      ⟨[⟨"a-0", 1, false⟩], some "a-0"⟩ := by decide
example :
    ListPaged pageFixture "root" ⟨"", "", 1, "a-0"⟩ =
      ⟨[⟨"a-1", 1, false⟩], some "a-1"⟩ := by decide
example :
    ListPaged pageFixture "root" ⟨"", "", 1, "a-1"⟩ =
      ⟨[⟨"a-2", 1, false⟩], none⟩ := by decide
example :
    ListPaged pageFixture2 "root" ⟨"", "", 1, "a-0"⟩ =
      ⟨[⟨"a-0a", 1, false⟩], some "a-0a"⟩ := by decide

/-- Properties of an entry the callback may append: past the page token,
and — for file entries — prefix-matching with no delimiter occurrence after
the prefix. -/
def AppendOK (opts : ListOpts) (o : LObj) : Prop :=
  (opts.pageToken ≠ "" → strLeB o.key opts.pageToken = false) ∧
  (o.isDir = false → strHasPre o.key opts.pfx = true ∧
    (opts.delimiter ≠ "" →
      strIndex (strDrop o.key opts.pfx.toList.length) opts.delimiter = none))

theorem strLeB_false_of_not (a b : String) (h : ¬ (strLeB a b = true)) :
    strLeB a b = false := by
  cases hb : strLeB a b
  · rfl
  · exact absurd hb h

theorem listVisit_cases (dir : String) (opts : ListOpts) (pageSize : Int)
    (path : String) (isDir : Bool) (size : Int) (st : LState) :
    ((listVisit dir opts pageSize path isDir size st).1.objects = st.objects ∧
     (listVisit dir opts pageSize path isDir size st).1.nextPageToken =
       st.nextPageToken ∧
     (listVisit dir opts pageSize path isDir size st).2 ≠ .stop) ∨
    (∃ o, (listVisit dir opts pageSize path isDir size st).1.objects =
        st.objects ++ [o] ∧
     (listVisit dir opts pageSize path isDir size st).1.nextPageToken =
       st.nextPageToken ∧
     (listVisit dir opts pageSize path isDir size st).2 ≠ .stop ∧
     AppendOK opts o ∧ (st.objects.length : Int) ≠ pageSize) ∨
    ((listVisit dir opts pageSize path isDir size st).1.objects = st.objects ∧
     (st.objects.length : Int) = pageSize ∧
     (listVisit dir opts pageSize path isDir size st).1.nextPageToken =
       some ((st.objects.getLast?.map (fun o => o.key)).getD "") ∧
     (listVisit dir opts pageSize path isDir size st).2 = .stop) := by
  unfold listVisit
  dsimp only
  split
  · exact Or.inl ⟨rfl, rfl, by simp⟩
  split
  · exact Or.inl ⟨rfl, rfl, by simp⟩
  split
  · split
    · exact Or.inl ⟨rfl, rfl, by simp⟩
    split
    · exact Or.inl ⟨rfl, rfl, by simp⟩
    split
    · exact Or.inl ⟨rfl, rfl, by simp⟩
    · exact Or.inl ⟨rfl, rfl, by simp⟩
  · split
    · exact Or.inl ⟨rfl, rfl, by simp⟩
    rename_i hpre
    split
    · exact Or.inl ⟨rfl, rfl, by simp⟩
    · rename_i obj st2 hstep
      have hobjs : st2.objects = st.objects ∧ st2.nextPageToken = st.nextPageToken ∧
          (obj.isDir = false → strHasPre obj.key opts.pfx = true ∧
            (opts.delimiter ≠ "" →
              strIndex (strDrop obj.key opts.pfx.toList.length) opts.delimiter = none)) := by
        split at hstep
        · rename_i hdel
          split at hstep
          · rename_i idx hidx
            split at hstep
            · exact absurd hstep (by simp)
            · injection hstep with h1
              injection h1 with hobj hst2
              rw [← hobj, ← hst2]
              exact ⟨rfl, rfl, by simp⟩
          · rename_i hidx
            injection hstep with h1
            injection h1 with hobj hst2
            rw [← hobj, ← hst2]
            refine ⟨rfl, rfl, fun _ => ⟨by simpa using hpre, fun _ => hidx⟩⟩
        · rename_i hdel
          injection hstep with h1
          injection h1 with hobj hst2
          rw [← hobj, ← hst2]
          refine ⟨rfl, rfl, fun _ => ⟨by simpa using hpre, fun hd => absurd hd hdel⟩⟩
      obtain ⟨ho1, ho2, ho3⟩ := hobjs
      split
      · exact Or.inl ⟨ho1, ho2, by simp⟩
      rename_i htok
      split
      · rename_i hfull
        rw [ho1] at hfull
        refine Or.inr (Or.inr ⟨ho1, hfull, ?_, rfl⟩)
        dsimp only
        rw [ho1]
      · rename_i hfull
        rw [ho1] at hfull
        refine Or.inr (Or.inl ⟨obj, ?_, ho2, by simp, ⟨?_, ho3⟩, hfull⟩)
        · dsimp only
          rw [ho1]
        · intro ht
          cases hb : strLeB obj.key opts.pageToken
          · rfl
          · exact absurd ⟨ht, hb⟩ htok
theorem runWalk_objects_mem (dir : String) (opts : ListOpts) (pageSize : Int) :
    ∀ (entries : List WalkEntry) (skipping : Option String) (st : LState),
    ∀ o ∈ (runWalk (listVisit dir opts pageSize) entries skipping st).objects,
      o ∈ st.objects ∨ AppendOK opts o := by
  intro entries
  induction entries with
  | nil => intro skipping st o ho; exact Or.inl ho
  | cons e rest ih =>
    intro skipping st o ho
    rw [runWalk.eq_def] at ho
    dsimp only at ho
    split at ho
    · exact ih skipping st o ho
    · rcases hcb : listVisit dir opts pageSize e.path e.isDir e.size st with ⟨st2, sig⟩
      rw [hcb] at ho
      have hc := listVisit_cases dir opts pageSize e.path e.isDir e.size st
      rw [hcb] at hc
      dsimp only at ho hc
      cases sig with
      | stop =>
        rcases hc with ⟨_, _, hne⟩ | ⟨o2, _, _, hne, _⟩ | ⟨hobj, _, _, _⟩
        · exact absurd rfl hne
        · exact absurd rfl hne
        · rw [hobj] at ho
          exact Or.inl ho
      | skipDir =>
        rcases ih (some e.path) st2 o ho with hmem | hok
        · rcases hc with ⟨hobj, _, _⟩ | ⟨o2, hobj, _, _, hok2, _⟩ | ⟨_, _, _, hstop⟩
          · rw [hobj] at hmem
            exact Or.inl hmem
          · rw [hobj] at hmem
            rcases List.mem_append.1 hmem with h1 | h2
            · exact Or.inl h1
            · rw [List.mem_singleton.1 h2]
              exact Or.inr hok2
          · exact absurd hstop (by simp)
        · exact Or.inr hok
      | cont =>
        rcases ih none st2 o ho with hmem | hok
        · rcases hc with ⟨hobj, _, _⟩ | ⟨o2, hobj, _, _, hok2, _⟩ | ⟨_, _, _, hstop⟩
          · rw [hobj] at hmem
            exact Or.inl hmem
          · rw [hobj] at hmem
            rcases List.mem_append.1 hmem with h1 | h2
            · exact Or.inl h1
            · rw [List.mem_singleton.1 h2]
              exact Or.inr hok2
          · exact absurd hstop (by simp)
        · exact Or.inr hok

theorem runWalk_token (dir : String) (opts : ListOpts) (pageSize : Int) :
    ∀ (entries : List WalkEntry) (skipping : Option String) (st : LState),
    st.nextPageToken = none →
    (runWalk (listVisit dir opts pageSize) entries skipping st).nextPageToken = none ∨
    ((runWalk (listVisit dir opts pageSize) entries skipping st).nextPageToken =
      some (((runWalk (listVisit dir opts pageSize) entries skipping
        st).objects.getLast?.map (fun o => o.key)).getD "") ∧
     ((runWalk (listVisit dir opts pageSize) entries skipping
       st).objects.length : Int) = pageSize) := by
  intro entries
  induction entries with
  | nil => intro skipping st h; exact Or.inl h
  | cons e rest ih =>
    intro skipping st h
    rw [runWalk.eq_def]
    dsimp only
    split
    · exact ih skipping st h
    · split
      · rename_i st2 heq
        have hc := listVisit_cases dir opts pageSize e.path e.isDir e.size st
        rw [heq] at hc
        dsimp only at hc
        rcases hc with ⟨_, _, hne⟩ | ⟨o2, _, _, hne, _⟩ | ⟨hobj, hlen, htok, _⟩
        · exact absurd rfl hne
        · exact absurd rfl hne
        · right
          rw [htok, hobj, hlen]
          exact ⟨rfl, rfl⟩
      · rename_i st2 heq
        have hc := listVisit_cases dir opts pageSize e.path e.isDir e.size st
        rw [heq] at hc
        dsimp only at hc
        rcases hc with ⟨_, ht, _⟩ | ⟨o2, _, ht, _, _, _⟩ | ⟨_, _, _, hstop⟩
        · exact ih (some e.path) st2 (by rw [ht, h])
        · exact ih (some e.path) st2 (by rw [ht, h])
        · exact absurd hstop (by simp)
      · rename_i st2 heq
        have hc := listVisit_cases dir opts pageSize e.path e.isDir e.size st
        rw [heq] at hc
        dsimp only at hc
        rcases hc with ⟨_, ht, _⟩ | ⟨o2, _, ht, _, _, _⟩ | ⟨_, _, _, hstop⟩
        · exact ih none st2 (by rw [ht, h])
        · exact ih none st2 (by rw [ht, h])
        · exact absurd hstop (by simp)

theorem runWalk_length (dir : String) (opts : ListOpts) (pageSize : Int) :
    ∀ (entries : List WalkEntry) (skipping : Option String) (st : LState),
    (st.objects.length : Int) ≤ pageSize →
    ((runWalk (listVisit dir opts pageSize) entries skipping
      st).objects.length : Int) ≤ pageSize := by
  intro entries
  induction entries with
  | nil => intro skipping st h; exact h
  | cons e rest ih =>
    intro skipping st h
    rw [runWalk.eq_def]
    dsimp only
    split
    · exact ih skipping st h
    · split
      · rename_i st2 heq
        have hc := listVisit_cases dir opts pageSize e.path e.isDir e.size st
        rw [heq] at hc
        dsimp only at hc
        rcases hc with ⟨_, _, hne⟩ | ⟨o2, _, _, hne, _⟩ | ⟨hobj, _, _, _⟩
        · exact absurd rfl hne
        · exact absurd rfl hne
        · rw [hobj]
          exact h
      · rename_i st2 heq
        have hc := listVisit_cases dir opts pageSize e.path e.isDir e.size st
        rw [heq] at hc
        dsimp only at hc
        rcases hc with ⟨hobj, _, _⟩ | ⟨o2, hobj, _, _, _, hne⟩ | ⟨_, _, _, hstop⟩
        · exact ih (some e.path) st2 (by rw [hobj]; exact h)
        · refine ih (some e.path) st2 ?_
          rw [hobj]
          simp only [List.length_append, List.length_cons, List.length_nil]
          push_cast
          omega
        · exact absurd hstop (by simp)
      · rename_i st2 heq
        have hc := listVisit_cases dir opts pageSize e.path e.isDir e.size st
        rw [heq] at hc
        dsimp only at hc
        rcases hc with ⟨hobj, _, _⟩ | ⟨o2, hobj, _, _, _, hne⟩ | ⟨_, _, _, hstop⟩
        · exact ih none st2 (by rw [hobj]; exact h)
        · refine ih none st2 ?_
          rw [hobj]
          simp only [List.length_append, List.length_cons, List.length_nil]
          push_cast
          omega
        · exact absurd hstop (by simp)
theorem listVisit_pageSize_field_irrel (dir : String) (p dl tk : String) (x y : Int) :
    listVisit dir ⟨p, dl, x, tk⟩ = listVisit dir ⟨p, dl, y, tk⟩ := by
  funext pageSize path isDir size st
  rfl

/-- C5 (confirmed).  With a non-empty page token every returned key is
strictly greater than the token (hence at or after it); whenever a
continuation token is returned the page is exactly full and the token is
the last returned key; and the concrete three-page scenario over keys
`a-0, a-1, a-2` with page size 1 — including the pages after `a-0a` is
inserted between page one and page two — returns every key exactly once,
in order, with an empty token after the last page. -/
theorem C5_pagination_stability :
    (∀ (entries : List WalkEntry) (dir : String) (opts : ListOpts),
      opts.pageToken ≠ "" →
      ∀ o ∈ (ListPaged entries dir opts).objects,
        strLeB o.key opts.pageToken = false) ∧
    (∀ (entries : List WalkEntry) (dir : String) (opts : ListOpts) (t : String),
      (ListPaged entries dir opts).nextPageToken = some t →
      t = (((ListPaged entries dir opts).objects.getLast?.map (fun o => o.key)).getD "")
        ∧ ((ListPaged entries dir opts).objects.length : Int) =
          (if opts.pageSize = 0 then defaultPageSize else opts.pageSize)) ∧
    (ListPaged pageFixture "root" ⟨"", "", 1, ""⟩ =
      ⟨[⟨"a-0", 1, false⟩], some "a-0"⟩ ∧
     ListPaged pageFixture "root" ⟨"", "", 1, "a-0"⟩ =
      ⟨[⟨"a-1", 1, false⟩], some "a-1"⟩ ∧
     ListPaged pageFixture "root" ⟨"", "", 1, "a-1"⟩ =
      ⟨[⟨"a-2", 1, false⟩], none⟩) ∧
    (ListPaged pageFixture2 "root" ⟨"", "", 1, "a-0"⟩ =
      ⟨[⟨"a-0a", 1, false⟩], some "a-0a"⟩ ∧
     ListPaged pageFixture2 "root" ⟨"", "", 1, "a-0a"⟩ =
      ⟨[⟨"a-1", 1, false⟩], some "a-1"⟩ ∧
     ListPaged pageFixture2 "root" ⟨"", "", 1, "a-1"⟩ =
      ⟨[⟨"a-2", 1, false⟩], none⟩) := by
  refine ⟨?_, ?_, by decide, by decide⟩
  · intro entries dir opts ht o ho
    have hm := runWalk_objects_mem dir opts
      (if opts.pageSize = 0 then defaultPageSize else opts.pageSize)
      entries none ⟨"", [], none⟩ o ho
    rcases hm with hmem | hok
    · exact absurd hmem (List.not_mem_nil o)
    · exact hok.1 ht
  · intro entries dir opts t hsome
    have hsome2 : (runWalk (listVisit dir opts
        (if opts.pageSize = 0 then defaultPageSize else opts.pageSize))
        entries none ⟨"", [], none⟩).nextPageToken = some t := hsome
    have hm := runWalk_token dir opts
      (if opts.pageSize = 0 then defaultPageSize else opts.pageSize)
      entries none ⟨"", [], none⟩ rfl
    rcases hm with hnone | ⟨hval, hlen⟩
    · rw [hsome2] at hnone
      cases hnone
    · rw [hsome2] at hval
      injection hval with hval2
      exact ⟨hval2, hlen⟩

/-- C6 (confirmed).  The concrete tree `dir/a.txt, dir/b.txt, dir2/c.txt,
f.txt` listed with delimiter `/` yields exactly `dir/`, `dir2/`, `f.txt` in
that order — the files under `dir/` collapse into one synthesized entry on
first encounter; and universally, no non-directory result key contains the
delimiter past the prefix, so keys like `dir/a.txt` are never returned
directly. -/
theorem C6_delimiter_collapsing :
    (ListPaged listFixture "root" ⟨"", "/", 0, ""⟩ =
      ⟨[⟨"dir/", 0, true⟩, ⟨"dir2/", 0, true⟩, ⟨"f.txt", 5, false⟩], none⟩) ∧
    (∀ (entries : List WalkEntry) (dir : String) (opts : ListOpts),
      opts.delimiter ≠ "" →
      ∀ o ∈ (ListPaged entries dir opts).objects, o.isDir = false →
        strHasPre o.key opts.pfx = true ∧
        strIndex (strDrop o.key opts.pfx.toList.length) opts.delimiter = none) := by
  refine ⟨by decide, ?_⟩
  intro entries dir opts hd o ho hfile
  have hm := runWalk_objects_mem dir opts
    (if opts.pageSize = 0 then defaultPageSize else opts.pageSize)
    entries none ⟨"", [], none⟩ o ho
  rcases hm with hmem | hok
  · exact absurd hmem (List.not_mem_nil o)
  · obtain ⟨hpre, hidx⟩ := hok.2 hfile
    exact ⟨hpre, hidx hd⟩

/-- C10 (confirmed).  A zero `PageSize` is replaced by the default of 1000,
so the call behaves exactly like an explicit 1000; the number of returned
entries never exceeds the effective page size; a continuation token is
returned only with an exactly full page; and at a caller-supplied cap the
token is set precisely when the walk still held a further matching entry
(exact fill leaves the token empty). -/
theorem C10_default_page_size :
    (∀ (entries : List WalkEntry) (dir : String) (opts : ListOpts),
      opts.pageSize = 0 →
      ListPaged entries dir opts =
        ListPaged entries dir { opts with pageSize := defaultPageSize }) ∧
    (∀ (entries : List WalkEntry) (dir : String) (opts : ListOpts),
      0 ≤ opts.pageSize →
      ((ListPaged entries dir opts).objects.length : Int) ≤
        (if opts.pageSize = 0 then defaultPageSize else opts.pageSize)) ∧
    (∀ (entries : List WalkEntry) (dir : String) (opts : ListOpts) (t : String),
      (ListPaged entries dir opts).nextPageToken = some t →
      ((ListPaged entries dir opts).objects.length : Int) =
        (if opts.pageSize = 0 then defaultPageSize else opts.pageSize)) ∧
    (ListPaged pageFixture "root" ⟨"", "", 3, ""⟩ =
      ⟨[⟨"a-0", 1, false⟩, ⟨"a-1", 1, false⟩, ⟨"a-2", 1, false⟩], none⟩ ∧
     ListPaged pageFixture "root" ⟨"", "", 2, ""⟩ =
      ⟨[⟨"a-0", 1, false⟩, ⟨"a-1", 1, false⟩], some "a-1"⟩) := by
  refine ⟨?_, ?_, ?_, by decide, by decide⟩
  · intro entries dir opts h
    obtain ⟨p, dl, psz, tk⟩ := opts
    dsimp only at h
    subst h
    show ListPaged entries dir ⟨p, dl, 0, tk⟩ =
      ListPaged entries dir ⟨p, dl, defaultPageSize, tk⟩
    unfold ListPaged
    dsimp only
    rw [listVisit_pageSize_field_irrel dir p dl tk 0 defaultPageSize]
    norm_num [defaultPageSize]
  · intro entries dir opts h
    refine runWalk_length dir opts
      (if opts.pageSize = 0 then defaultPageSize else opts.pageSize)
      entries none ⟨"", [], none⟩ ?_
    dsimp only
    split
    · norm_num [defaultPageSize]
    · simpa using h
  · intro entries dir opts t hsome
    have hsome2 : (runWalk (listVisit dir opts
        (if opts.pageSize = 0 then defaultPageSize else opts.pageSize))
        entries none ⟨"", [], none⟩).nextPageToken = some t := hsome
    have hm := runWalk_token dir opts
      (if opts.pageSize = 0 then defaultPageSize else opts.pageSize)
      entries none ⟨"", [], none⟩ rfl
    rcases hm with hnone | ⟨hval, hlen⟩
    · rw [hsome2] at hnone
      cases hnone
    · exact hlen

theorem C5_witness :
    "a-0" = (((ListPaged pageFixture "root"
        ⟨"", "", 1, ""⟩).objects.getLast?.map (fun o => o.key)).getD "") ∧
    (((ListPaged pageFixture "root" ⟨"", "", 1, ""⟩).objects.length : Int) =
      (if (⟨"", "", 1, ""⟩ : ListOpts).pageSize = 0 then defaultPageSize
       else (⟨"", "", 1, ""⟩ : ListOpts).pageSize)) :=
  C5_pagination_stability.2.1 pageFixture "root" ⟨"", "", 1, ""⟩ "a-0" (by decide)

theorem C6_witness :
    strHasPre (LObj.mk "f.txt" 5 false).key
      (⟨"", "/", 0, ""⟩ : ListOpts).pfx = true ∧
    strIndex (strDrop (LObj.mk "f.txt" 5 false).key
        (⟨"", "/", 0, ""⟩ : ListOpts).pfx.toList.length)
      (⟨"", "/", 0, ""⟩ : ListOpts).delimiter = none :=
  C6_delimiter_collapsing.2 listFixture "root" ⟨"", "/", 0, ""⟩ (by decide)
    ⟨"f.txt", 5, false⟩ (by decide) (by decide)

theorem C10_witness :
    ListPaged pageFixture "root" ⟨"", "", 0, ""⟩ =
      ListPaged pageFixture "root" ⟨"", "", defaultPageSize, ""⟩ :=
  C10_default_page_size.1 pageFixture "root" ⟨"", "", 0, ""⟩ rfl

/-! ## Façade metadata normalization (package blob: Bucket.NewWriter / Bucket.Attributes)

Go strings are byte strings, so the façade code is embedded over `GoStr :=
List Nat` (one entry per byte).  `utf8Valid` is `utf8.ValidString` with the
standard library's first-byte accept ranges (rejecting continuation-byte
starts, overlong C0/C1, surrogate range via the 0xED row, values past
U+10FFFF via the 0xF4 row and 0xF5..0xFF).  `strings.ToLower` is kept
abstract as a parameter `lower`; `asciiLower` is its restriction to ASCII
used for concrete instances.  Go's metadata map is embedded as an
association list iterated in order, with `metaLookup` the map lookup. -/

abbrev GoStr := List Nat

abbrev MetaKV := List (GoStr × GoStr)

def isCont (b : Nat) : Bool := decide (0x80 ≤ b ∧ b ≤ 0xBF)

def utf8AcceptB1 (b b1 : Nat) : Bool :=
  if b = 0xE0 then decide (0xA0 ≤ b1 ∧ b1 ≤ 0xBF)
  else if b = 0xED then decide (0x80 ≤ b1 ∧ b1 ≤ 0x9F)
  else if b = 0xF0 then decide (0x90 ≤ b1 ∧ b1 ≤ 0xBF)
  else if b = 0xF4 then decide (0x80 ≤ b1 ∧ b1 ≤ 0x8F)
  else decide (0x80 ≤ b1 ∧ b1 ≤ 0xBF)

def utf8Valid : GoStr → Bool
  | [] => true
  | b :: rest =>
    if b ≤ 0x7F then utf8Valid rest
    else if b ≤ 0xC1 then false
    else if b ≤ 0xDF then
      match rest with
      | b1 :: rest2 => utf8AcceptB1 b b1 && utf8Valid rest2
      | [] => false
    else if b ≤ 0xEF then
      match rest with
      | b1 :: b2 :: rest2 => utf8AcceptB1 b b1 && isCont b2 && utf8Valid rest2
      | _ => false
    else if b ≤ 0xF4 then
      match rest with
      | b1 :: b2 :: b3 :: rest2 =>
          utf8AcceptB1 b b1 && isCont b2 && isCont b3 && utf8Valid rest2
      | _ => false
    else false

/-- Errors returned by the façade `Bucket.NewWriter`; every constructor
corresponds to a `verr.Newf(verr.InvalidArgument, ...)` return in the
source. -/
inductive FacadeErr where
  | invalidKeyNotUTF8
  | metaEmptyKey
  | metaKeyNotUTF8
  | metaValueNotUTF8
  | metaDuplicateKey (k : GoStr)
deriving DecidableEq

def errCode : FacadeErr → String
  | FacadeErr.invalidKeyNotUTF8 => "InvalidArgument"
  | FacadeErr.metaEmptyKey => "InvalidArgument"
  | FacadeErr.metaKeyNotUTF8 => "InvalidArgument"
  | FacadeErr.metaValueNotUTF8 => "InvalidArgument"
  | FacadeErr.metaDuplicateKey _ => "InvalidArgument"

def metaLookup : MetaKV → GoStr → Option GoStr
  | [], _ => none
  | (k2, v) :: rest, k => if k2 = k then some v else metaLookup rest k

def asciiLower (s : GoStr) : GoStr :=
  s.map (fun b => if 0x41 ≤ b ∧ b ≤ 0x5A then b + 32 else b)

/-- The metadata-validation loop of `Bucket.NewWriter`: `for k, v := range
opts.Metadata` rejecting empty keys, non-UTF-8 keys, non-UTF-8 values and
case-insensitive duplicates, accumulating `md[strings.ToLower(k)] = v`. -/
def newWriterMetaGo (lower : GoStr → GoStr) :
    MetaKV → MetaKV → Except FacadeErr MetaKV
  | [], md => Except.ok md
  | (k, v) :: rest, md =>
    if k = ([] : GoStr) then Except.error FacadeErr.metaEmptyKey
    else if utf8Valid k = false then Except.error FacadeErr.metaKeyNotUTF8
    else if utf8Valid v = false then Except.error FacadeErr.metaValueNotUTF8
    else if (metaLookup md (lower k)).isSome = true then
      Except.error (FacadeErr.metaDuplicateKey (lower k))
    else newWriterMetaGo lower rest (md ++ [(lower k, v)])

/-- `Bucket.NewWriter` up to the point where a driver writer could be
created: the key UTF-8 check, then (for non-empty metadata) the validation
loop.  On success the result is the `dopts.Metadata` handed to the driver;
every error return in the source precedes `b.b.NewTypedWriter`, which is
why the embedding needs no driver or filesystem state at all. -/
def facadeNewWriter (lower : GoStr → GoStr) (key : GoStr) (metadata : MetaKV) :
    Except FacadeErr MetaKV :=
  if utf8Valid key = false then Except.error FacadeErr.invalidKeyNotUTF8
  else if metadata = ([] : MetaKV) then Except.ok []
  else newWriterMetaGo lower metadata []

/-- The metadata loop of `Bucket.Attributes`: `md[strings.ToLower(k)] = v`
over the driver attributes. -/
def facadeAttrsMetadata (lower : GoStr → GoStr) (md : MetaKV) : MetaKV :=
  md.map (fun p => (lower p.1, p.2))

/-- An entry the `NewWriter` loop rejects on its own: empty key, non-UTF-8
key, or non-UTF-8 value. -/
def badEntry (p : GoStr × GoStr) : Bool :=
  decide (p.1 = ([] : GoStr)) || !utf8Valid p.1 || !utf8Valid p.2

theorem metaLookup_isSome_append_left (md l : MetaKV) (kk : GoStr)
    (h : (metaLookup md kk).isSome = true) :
    (metaLookup (md ++ l) kk).isSome = true := by
  induction md with
  | nil => simp [metaLookup] at h
  | cons p rest ih =>
    obtain ⟨k2, v⟩ := p
    rw [metaLookup] at h
    rw [List.cons_append, metaLookup]
    split at h
    · rename_i hk
      rw [if_pos hk]
      rfl
    · rename_i hk
      rw [if_neg hk]
      exact ih h

theorem metaLookup_append_self (md : MetaKV) (kk v : GoStr) :
    (metaLookup (md ++ [(kk, v)]) kk).isSome = true := by
  induction md with
  | nil => simp [metaLookup]
  | cons p rest ih =>
    obtain ⟨k2, v2⟩ := p
    rw [List.cons_append, metaLookup]
    split
    · rfl
    · exact ih

theorem newWriterMetaGo_err (lower : GoStr → GoStr) :
    ∀ (rest md : MetaKV),
    ((∃ p ∈ rest, badEntry p = true) ∨
     (∃ p ∈ rest, (metaLookup md (lower p.1)).isSome = true) ∨
     (∃ l1 p l2 q l3, rest = l1 ++ p :: (l2 ++ q :: l3) ∧
        lower p.1 = lower q.1)) →
    ∃ e, newWriterMetaGo lower rest md = Except.error e := by
  intro rest
  induction rest with
  | nil =>
    intro md h
    rcases h with ⟨p, hp, _⟩ | ⟨p, hp, _⟩ | ⟨l1, p, l2, q, l3, heq, _⟩
    · exact absurd hp (List.not_mem_nil p)
    · exact absurd hp (List.not_mem_nil p)
    · cases l1 <;> simp at heq
  | cons e0 rest2 ih =>
    intro md h
    obtain ⟨k, v⟩ := e0
    rw [newWriterMetaGo]
    by_cases hk : k = ([] : GoStr)
    · rw [if_pos hk]
      exact ⟨_, rfl⟩
    · rw [if_neg hk]
      by_cases hku : utf8Valid k = false
      · rw [if_pos hku]
        exact ⟨_, rfl⟩
      · rw [if_neg hku]
        by_cases hvu : utf8Valid v = false
        · rw [if_pos hvu]
          exact ⟨_, rfl⟩
        · rw [if_neg hvu]
          by_cases hdup : (metaLookup md (lower k)).isSome = true
          · rw [if_pos hdup]
            exact ⟨_, rfl⟩
          · rw [if_neg hdup]
            apply ih
            rcases h with ⟨p, hp, hbad⟩ | ⟨p, hp, hsome⟩ |
              ⟨l1, p, l2, q, l3, heq, hlow⟩
            · rcases List.mem_cons.mp hp with heq0 | hp2
              · subst heq0
                have hk2 : utf8Valid k = true := by
                  cases hu : utf8Valid k with
                  | false => exact absurd hu hku
                  | true => rfl
                have hv2 : utf8Valid v = true := by
                  cases hu : utf8Valid v with
                  | false => exact absurd hu hvu
                  | true => rfl
                simp [badEntry, hk, hk2, hv2] at hbad
              · exact Or.inl ⟨p, hp2, hbad⟩
            · rcases List.mem_cons.mp hp with heq0 | hp2
              · subst heq0
                exact absurd hsome hdup
              · exact Or.inr (Or.inl ⟨p, hp2,
                  metaLookup_isSome_append_left md [(lower k, v)] _ hsome⟩)
            · cases l1 with
              | nil =>
                simp only [List.nil_append, List.cons.injEq] at heq
                obtain ⟨hpk, hrest⟩ := heq
                refine Or.inr (Or.inl ⟨q, ?_, ?_⟩)
                · rw [hrest]
                  exact List.mem_append_right l2 (List.mem_cons_self q l3)
                · have hql : lower q.1 = lower k := by
                    rw [← hlow, ← hpk]
                  rw [hql]
                  exact metaLookup_append_self md (lower k) v
              | cons h1 l1b =>
                simp only [List.cons_append, List.cons.injEq] at heq
                exact Or.inr (Or.inr ⟨l1b, p, l2, q, l3, heq.2, hlow⟩)

theorem newWriterMetaGo_ok (lower : GoStr → GoStr) :
    ∀ (rest md md2 : MetaKV),
    newWriterMetaGo lower rest md = Except.ok md2 →
    md2 = md ++ rest.map (fun p => (lower p.1, p.2)) := by
  intro rest
  induction rest with
  | nil =>
    intro md md2 h
    rw [newWriterMetaGo] at h
    injection h with h2
    simp [h2.symm]
  | cons e0 rest2 ih =>
    intro md md2 h
    obtain ⟨k, v⟩ := e0
    rw [newWriterMetaGo] at h
    split at h
    · cases h
    · split at h
      · cases h
      · split at h
        · cases h
        · split at h
          · cases h
          · rw [ih (md ++ [(lower k, v)]) md2 h]
            simp [List.append_assoc]

/-- C9 (confirmed).  The façade `NewWriter` rejects metadata containing an
empty key, a non-UTF-8 key or value, or two keys equal after lower-casing,
always with an `InvalidArgument` error — and every such error return in the
source precedes driver-writer creation, which is why the embedding is a
pure function of key and metadata with no driver or filesystem state; on
success the driver receives exactly the input metadata with keys
lower-cased; a non-UTF-8 top-level key is likewise rejected; concretely
`{"Foo": "a", "foo": "b"}` fails as a duplicate of `"foo"`, while
`{"Foo": "a"}` is stored as `{"foo": "a"}` and `Attributes` (which
lower-cases keys again on read) returns it keyed `"foo"`. -/
theorem C9_metadata_normalization :
    (∀ (lower : GoStr → GoStr) (key : GoStr) (metadata : MetaKV),
      ((∃ p ∈ metadata, badEntry p = true) ∨
       (∃ l1 p l2 q l3, metadata = l1 ++ p :: (l2 ++ q :: l3) ∧
          lower p.1 = lower q.1)) →
      ∃ e, facadeNewWriter lower key metadata = Except.error e ∧
        errCode e = "InvalidArgument") ∧
    (∀ (lower : GoStr → GoStr) (key : GoStr) (metadata m : MetaKV),
      facadeNewWriter lower key metadata = Except.ok m →
      m = metadata.map (fun p => (lower p.1, p.2))) ∧
    (∀ (key : GoStr), utf8Valid key = false →
      facadeNewWriter asciiLower key [] =
        Except.error FacadeErr.invalidKeyNotUTF8) ∧
    (facadeNewWriter asciiLower [107]
        [([70, 111, 111], [97]), ([102, 111, 111], [98])] =
      Except.error (FacadeErr.metaDuplicateKey [102, 111, 111])) ∧
    (facadeNewWriter asciiLower [107] [([70, 111, 111], [97])] =
      Except.ok [([102, 111, 111], [97])] ∧
     metaLookup (facadeAttrsMetadata asciiLower [([102, 111, 111], [97])])
       [102, 111, 111] = some [97]) := by
  refine ⟨?_, ?_, ?_, by decide, by decide, by decide⟩
  · intro lower key metadata h
    unfold facadeNewWriter
    by_cases hkey : utf8Valid key = false
    · rw [if_pos hkey]
      exact ⟨FacadeErr.invalidKeyNotUTF8, rfl, rfl⟩
    · rw [if_neg hkey]
      have hne : metadata ≠ ([] : MetaKV) := by
        rcases h with ⟨p, hp, _⟩ | ⟨l1, p, l2, q, l3, heq, _⟩
        · intro h0
          subst h0
          exact List.not_mem_nil p hp
        · intro h0
          subst h0
          cases l1 <;> simp at heq
      rw [if_neg hne]
      obtain ⟨e, herr⟩ := newWriterMetaGo_err lower metadata []
        (h.elim (fun a => Or.inl a) (fun b => Or.inr (Or.inr b)))
      exact ⟨e, herr, by cases e <;> rfl⟩
  · intro lower key metadata m h
    unfold facadeNewWriter at h
    split at h
    · cases h
    · split at h
      · rename_i hemp
        injection h with h2
        subst hemp
        simp [h2.symm]
      · have := newWriterMetaGo_ok lower metadata [] m h
        simpa using this
  · intro key hk
    unfold facadeNewWriter
    rw [if_pos hk]

theorem C9_witness :
    ([([102, 111, 111], [97])] : MetaKV) =
      ([([70, 111, 111], [97])] : MetaKV).map
        (fun p => (asciiLower p.1, p.2)) :=
  C9_metadata_normalization.2.1 asciiLower [107] [([70, 111, 111], [97])]
    [([102, 111, 111], [97])] (by decide)

end Awan
